import Mathlib

/-!
# Termsweeper: the command source of `src/main.cpp`

A shallow embedding of `main.cpp`: the coordinate parser `fParsePosition`, the
continuation question, the command-line argument loop, the parameter checks and
the command loop of `main`.

The field engine (`CMap`, declared in `map.hpp`) and `CVector` (`vector.hpp`)
are not part of `main.cpp`.  `CVector` is a pair of `int`s; the engine is a
parameter of the model: every statement about `main` holds for every engine.

Characters are their integer codes (a C `char` promoted to `int`), strings are
lists of codes.  The `<cctype>` functions are those of the "C" locale: letters
are `A`-`Z` and `a`-`z`, digits are `0`-`9`, and no byte outside ASCII is either.
-/

namespace Termsweeper

/-! ## Characters, strings, vectors, exceptions -/

/-- A `std::string` (or a C string without its terminator): the list of its character codes. -/
abbrev CStr := List Int

/-- The character codes of a string literal. -/
def cstr (s : String) : CStr := s.toList.map (fun c => (c.toNat : Int))

/-- `CVector(x, y)` of `vector.hpp`: a pair of `int`s. -/
structure CVector where
  x : Int
  y : Int
  deriving DecidableEq, Repr

/-- The exceptions of the `std::exception` hierarchy that `main.cpp` throws or names in a
handler.  `invalid_argument` is a `logic_error`, not a `runtime_error`; `exception` stands
for any other class derived from `std::exception`. -/
inductive Exn where
  | runtime_error (what : String)
  | invalid_argument (what : String)
  | exception (what : String)
  deriving DecidableEq, Repr

/-- Result of a call that may throw. -/
inductive Res (α : Type) where
  | ok (value : α)
  | raise (e : Exn)
  deriving DecidableEq, Repr

/-- `isalpha` in the "C" locale. -/
def isalpha (c : Int) : Bool := decide ((65 ≤ c ∧ c ≤ 90) ∨ (97 ≤ c ∧ c ≤ 122))

/-- `isdigit`. -/
def isdigit (c : Int) : Bool := decide (48 ≤ c ∧ c ≤ 57)

/-- `isspace` in the "C" locale: space, `\t`, `\n`, `\v`, `\f`, `\r`. -/
def isspace (c : Int) : Bool := decide (c = 32 ∨ (9 ≤ c ∧ c ≤ 13))

/-- `toupper` in the "C" locale. -/
def toupper (c : Int) : Int := if 97 ≤ c ∧ c ≤ 122 then c - 32 else c

/-- `tolower` in the "C" locale (not called by the program; used to state case insensitivity). -/
def tolower (c : Int) : Int := if 65 ≤ c ∧ c ≤ 90 then c + 32 else c

/-! ## `fParsePosition` (main.cpp 27-43) -/

/-- The `for` loop of `fParsePosition` over the characters from the second one on,
threading the locals `x` and `y`. -/
def fParsePositionLoop : CStr → Int → Int → Int × Int
  | [], x, y => (x, y)
  | c :: rest, x, y =>
    if isalpha c && decide (x < 0) then fParsePositionLoop rest (toupper c - 65) y
    else if isdigit c && decide (y < 0) then fParsePositionLoop rest x (c - 48)
    else fParsePositionLoop rest x y

/-- `CVector fParsePosition(string input)`. -/
def fParsePosition (input : CStr) : Res CVector :=
  if input.length < 1 then Res.raise (Exn.invalid_argument "#0 at fParsePosition")
  else
    let xy := fParsePositionLoop input.tail (-1) (-1)
    if xy.1 < 0 ∨ xy.2 < 0 then Res.raise (Exn.runtime_error "Missing or incomplete Position")
    else Res.ok (CVector.mk xy.1 xy.2)

/-! ## `fContinueQuestion` (main.cpp 45-51) -/

/-- The question `fContinueQuestion` prints. -/
def continuePrompt : String := "Do you want to continue with the same Settings? [y/N]"

/-- `bool fContinueQuestion()`, on the characters still unread on `cin`: `cin >> inchar`
skips white space and extracts one character; at end of input `inchar` keeps its
initial `' '`.  Returns the answer and the characters left on `cin`. -/
def fContinueQuestion (cin : CStr) : Bool × CStr :=
  match cin.dropWhile isspace with
  | [] => (false, [])
  | inchar :: rest => (decide (inchar = 121 ∨ inchar = 89), rest)

/-! ## Argument parsing and parameter checks (main.cpp 55-103) -/

/-- The locals `iXSize`, `iYSize`, `iMines` of `main`. -/
structure Config where
  iXSize : Int
  iYSize : Int
  iMines : Int
  deriving DecidableEq, Repr

/-- Conversion of a value to a 32-bit `int` (two's complement wrap-around). -/
def wrapInt (n : Int) : Int := (n + 2147483648) % 4294967296 - 2147483648

/-- The range of a 64-bit `long`: `strtol` returns `LONG_MAX` or `LONG_MIN` for a value
outside it. -/
def clampLong (n : Int) : Int :=
  if n > 9223372036854775807 then 9223372036854775807
  else if n < -9223372036854775808 then -9223372036854775808
  else n

/-- Digit loop of `strtol`: the value of the leading decimal digits. -/
def atoiDigits : CStr → Int → Int
  | [], acc => acc
  | c :: rest, acc => if isdigit c then atoiDigits rest (acc * 10 + (c - 48)) else acc

/-- `strtol(s, NULL, 10)` of the C library with a 64-bit `long`: optional white space,
optional sign, decimal digits; `0` when no digits follow; a value outside `long` is
replaced by `LONG_MAX` or `LONG_MIN`. -/
def strtol (s : CStr) : Int :=
  match s.dropWhile isspace with
  | [] => 0
  | c :: rest =>
    if c = 45 then clampLong (- atoiDigits rest 0)
    else if c = 43 then clampLong (atoiDigits rest 0)
    else clampLong (atoiDigits (c :: rest) 0)

/-- `atoi` of the C library, which is `(int) strtol(s, NULL, 10)`: the `long` is truncated
to the 32-bit `int` that `main` stores in `iXSize`, `iYSize` or `iMines`, so
`atoi("4294967304")` is `8` and `atoi("2147483648")` is `-2147483648`. -/
def atoi (s : CStr) : Int := wrapInt (strtol s)

/-- Result of the argument loop: the three locals, or the early `return 1` on an
unknown option (with the character `arg[1]` that is printed). -/
inductive Parsed where
  | ok (cfg : Config)
  | unrecognised (c : Int)
  deriving DecidableEq, Repr

/-- The `for` loop over `args[a]`, `a = 0 .. argc-1` (main.cpp 58-86), on the arguments not
yet visited.  `*arg` of an empty argument and `arg[1]` of a one-character argument are the
terminator `0`.  An option that is the last argument (`a >= argc` after `a++`) changes nothing. -/
def parseArgs : List CStr → Config → Parsed
  | [], cfg => Parsed.ok cfg
  | arg :: rest, cfg =>
    if arg.headD 0 = 45 then
      let c := arg.getD 1 0
      if c = 120 then
        match rest with
        | [] => Parsed.ok cfg
        | v :: rest2 => parseArgs rest2 (Config.mk (atoi v) cfg.iYSize cfg.iMines)
      else if c = 121 then
        match rest with
        | [] => Parsed.ok cfg
        | v :: rest2 => parseArgs rest2 (Config.mk cfg.iXSize (atoi v) cfg.iMines)
      else if c = 109 then
        match rest with
        | [] => Parsed.ok cfg
        | v :: rest2 => parseArgs rest2 (Config.mk cfg.iXSize cfg.iYSize (atoi v))
      else Parsed.unrecognised c
    else parseArgs rest cfg

/-- The default values of `iXSize`, `iYSize`, `iMines` (main.cpp 55-57). -/
def defaults : Config := Config.mk 8 8 10

/-- A 32-bit `int` product as the machine computes it (two's complement wrap-around). -/
def mulInt (a b : Int) : Int := wrapInt (a * b)

/-- The sanity checks of main.cpp 88-103: the message of the first failing check, or
`none` when all three pass. -/
def checkParameters (cfg : Config) : Option String :=
  if cfg.iXSize ≤ 1 ∨ cfg.iXSize > 26 then
    some ("Invalid value for -x: " ++ toString cfg.iXSize ++ "\n")
  else if cfg.iYSize ≤ 1 ∨ cfg.iYSize > 10 then
    some ("Invalid value for -y: " ++ toString cfg.iYSize ++ "\n")
  else if cfg.iMines < 1 ∨ cfg.iMines ≥ mulInt cfg.iXSize cfg.iYSize then
    some ("Invalid value for -m: " ++ toString cfg.iMines ++ "\n")
  else none

/-! ## The engine as seen from `main` -/

/-- A call that `main` makes on its `CMap Map`, with the arguments and the result.
`printMap false` is the call `Map.printMap()` without argument, `printMap true` the call
`Map.printMap(true)`. -/
inductive Call where
  | construct
  | Init (size : CVector) (mines : Int)
  | Quit
  | Try (pos : CVector) (result : Res Bool)
  | TryAround (pos : CVector) (result : Res Bool)
  | Flag (pos : CVector) (result : Res Unit)
  | Mark (pos : CVector) (result : Res Unit)
  | GameWon (result : Bool)
  | printMap (reveal : Bool)
  | printMessages
  deriving DecidableEq, Repr

/-- The interface of `CMap` that `main.cpp` uses, over an engine state `σ`.  Every member
function is a state transformer.  `Try`, `TryAround`, `Flag` and `Mark`, the calls `main`
wraps in `try`, may throw (the state after a throw is whatever the engine left);
`Init`, `Quit`, `GameWon`, `printMap` and `printMessages` are taken to return normally. -/
structure CMap (σ : Type) where
  construct : σ
  Init : CVector → Int → σ → σ
  Quit : σ → σ
  Try : CVector → σ → Res Bool × σ
  TryAround : CVector → σ → Res Bool × σ
  Flag : CVector → σ → Res Unit × σ
  Mark : CVector → σ → Res Unit × σ
  GameWon : σ → Bool × σ
  printMap : Bool → σ → σ
  printMessages : σ → σ

/-- What a piece of `main` leaves behind: the engine state, the unread part of `cin`, the
engine calls it made and the text it wrote to `cout` (both in order), and the value of
`bContinueLoop`. -/
structure Step (σ : Type) where
  Map : σ
  cin : CStr
  calls : List Call
  out : List String
  bContinueLoop : Bool

/-- One pass through the body of the `while` loop: what it leaves behind, and whether it
left the loop through the `break` of main.cpp 230. -/
structure Iter (σ : Type) where
  step : Step σ
  broke : Bool

/-- The two `catch` clauses that follow every `try` of `main`: a `runtime_error` prints
`what()`, any other `std::exception` prints `Unknown Exception: ` and `what()`. -/
def catchMessage : Exn → String
  | Exn.runtime_error what => what ++ "\n"
  | Exn.invalid_argument what => "Unknown Exception: " ++ what ++ "\n"
  | Exn.exception what => "Unknown Exception: " ++ what ++ "\n"

/-- The calls of `Map.Quit(); Map.Init(CVector(iXSize, iYSize), iMines); Map.printMap();`. -/
def restartCalls (cfg : Config) : List Call :=
  [Call.Quit, Call.Init (CVector.mk cfg.iXSize cfg.iYSize) cfg.iMines, Call.printMap false]

/-- The state after `Map.Quit(); Map.Init(CVector(iXSize, iYSize), iMines); Map.printMap();`. -/
def restart {σ : Type} (M : CMap σ) (cfg : Config) (s : σ) : σ :=
  M.printMap false (M.Init (CVector.mk cfg.iXSize cfg.iYSize) cfg.iMines (M.Quit s))

/-- The `case 'T'` and `case 'X'` blocks (main.cpp 121-147 and 175-201), which differ only
in the member function called (`op`, recorded as `ev`).  The argument `fParsePosition(sCommand)`
is evaluated before the call. -/
def tryCase {σ : Type} (M : CMap σ) (cfg : Config) (op : CVector → σ → Res Bool × σ)
    (ev : CVector → Res Bool → Call) (sCommand : CStr) (s : σ) (cin : CStr) : Step σ :=
  match fParsePosition sCommand with
  | Res.raise e => Step.mk s cin [] [catchMessage e] true
  | Res.ok pos =>
    match op pos s with
    | (Res.raise e, s1) => Step.mk s1 cin [ev pos (Res.raise e)] [catchMessage e] true
    | (Res.ok true, s1) =>
      Step.mk (M.printMap false s1) cin [ev pos (Res.ok true), Call.printMap false] [] true
    | (Res.ok false, s1) =>
      let q := fContinueQuestion cin
      if q.1 then
        Step.mk (restart M cfg (M.printMap true s1)) q.2
          (ev pos (Res.ok false) :: Call.printMap true :: restartCalls cfg)
          ["Game Over!\n", continuePrompt] true
      else
        Step.mk (M.printMap true s1) q.2 [ev pos (Res.ok false), Call.printMap true]
          ["Game Over!\n", continuePrompt] false

/-- The `case 'F'` and `case '?'` blocks (main.cpp 148-174). -/
def flagCase {σ : Type} (M : CMap σ) (op : CVector → σ → Res Unit × σ)
    (ev : CVector → Res Unit → Call) (sCommand : CStr) (s : σ) (cin : CStr) : Step σ :=
  match fParsePosition sCommand with
  | Res.raise e => Step.mk s cin [] [catchMessage e] true
  | Res.ok pos =>
    match op pos s with
    | (Res.raise e, s1) => Step.mk s1 cin [ev pos (Res.raise e)] [catchMessage e] true
    | (Res.ok (), s1) =>
      Step.mk (M.printMap false s1) cin [ev pos (Res.ok ()), Call.printMap false] [] true

/-- The commands the `switch` of main.cpp 119-220 distinguishes. -/
inductive Command where
  | T | F | mark | X | Q | H | V | R | other
  deriving DecidableEq, Repr

/-- The `case` labels of the `switch (sCommand.at(0))`. -/
def commandOf (c : Int) : Command :=
  if c = 84 ∨ c = 116 then Command.T
  else if c = 70 ∨ c = 102 then Command.F
  else if c = 63 then Command.mark
  else if c = 88 ∨ c = 120 then Command.X
  else if c = 81 ∨ c = 113 then Command.Q
  else if c = 72 ∨ c = 104 then Command.H
  else if c = 86 ∨ c = 118 then Command.V
  else if c = 114 ∨ c = 82 then Command.R
  else Command.other

/-- The text `fPrintHelp` prints (main.cpp 13-24). -/
def helpText : String :=
  "Positioned commands:\n\tTxy : Tries at field xy\n\tXxy : Try non-flagged fields around xy\n" ++
  "\tFxy : Flags field xy\n\t?xy : Marks field xy\n" ++
  "\tX-Coordinates are Letters, Y-Coordinates are Numbers.\n\tThe order does not matter\n" ++
  "General commands:\n\tR : Restart the Game from the same settings\n" ++
  "\tV : Retype the Playfield\n\tQ : Quit\n\nAll commands and parameters are case insensitive\n"

/-- The `switch` statement of main.cpp 119-220, entered with a non-empty `sCommand` and
`bContinueLoop == true`. -/
def dispatch {σ : Type} (M : CMap σ) (cfg : Config) (sCommand : CStr) (s : σ) (cin : CStr) :
    Step σ :=
  match commandOf (sCommand.headD 0) with
  | Command.T => tryCase M cfg M.Try Call.Try sCommand s cin
  | Command.F => flagCase M M.Flag Call.Flag sCommand s cin
  | Command.mark => flagCase M M.Mark Call.Mark sCommand s cin
  | Command.X => tryCase M cfg M.TryAround Call.TryAround sCommand s cin
  | Command.Q => Step.mk s cin [] [] false
  | Command.H => Step.mk s cin [] [helpText] true
  | Command.V => Step.mk (M.printMap false s) cin [Call.printMap false] [] true
  | Command.R => Step.mk (restart M cfg s) cin (restartCalls cfg) [] true
  | Command.other => Step.mk s cin [] [] true

/-- The `if (Map.GameWon())` block that follows the `switch` (main.cpp 221-232), continuing
from what the `switch` left behind. -/
def wonCheck {σ : Type} (M : CMap σ) (cfg : Config) (d : Step σ) : Iter σ :=
  let g := M.GameWon d.Map
  if g.1 then
    let q := fContinueQuestion d.cin
    if q.1 then
      Iter.mk (Step.mk (restart M cfg g.2) q.2 (d.calls ++ Call.GameWon true :: restartCalls cfg)
        (d.out ++ ["Game Completed!\n", continuePrompt]) d.bContinueLoop) false
    else
      Iter.mk (Step.mk g.2 q.2 (d.calls ++ [Call.GameWon true])
        (d.out ++ ["Game Completed!\n", continuePrompt]) d.bContinueLoop) true
  else
    Iter.mk (Step.mk g.2 d.cin (d.calls ++ [Call.GameWon false]) d.out d.bContinueLoop) false

/-- The loop body from the line read on (main.cpp 118-232): an empty line takes the
`continue`, any other goes through the `switch` and the `GameWon` block. -/
def commandStep {σ : Type} (M : CMap σ) (cfg : Config) (sCommand : CStr) (s : σ) (cin : CStr) :
    Iter σ :=
  if sCommand.length < 1 then Iter.mk (Step.mk s cin [] [] true) false
  else wonCheck M cfg (dispatch M cfg sCommand s cin)

/-- The prompt handed to `readline`. -/
def commandPrompt : String := "Please enter command (help with H): "

/-- The whole body of the `while` loop (main.cpp 113-232) on the line `readline` returns. -/
def loopBody {σ : Type} (M : CMap σ) (cfg : Config) (sCommand : CStr) (s : σ) (cin : CStr) :
    Iter σ :=
  let r := commandStep M cfg sCommand (M.printMessages s) cin
  Iter.mk (Step.mk r.step.Map r.step.cin (Call.printMessages :: r.step.calls)
    (commandPrompt :: r.step.out) r.step.bContinueLoop) r.broke

/-- How a run of `main` ends up: the exit code (`none` while the program still waits in
`readline` for a line the input does not hold), the engine state (`none` when no map was
constructed), every engine call made and everything written to `cout`. -/
structure Outcome (σ : Type) where
  exit : Option Int
  Map : Option σ
  calls : List Call
  out : List String

/-- The `while (bContinueLoop)` loop and the `Map.Quit(); return 0;` after it
(main.cpp 111-235), on the lines `readline` will return, entered with `bContinueLoop == true`.
When the lines are used up the program has printed the messages and the prompt and waits. -/
def mainLoop {σ : Type} (M : CMap σ) (cfg : Config) : List CStr → σ → CStr → Outcome σ
  | [], s, _ => Outcome.mk none (some (M.printMessages s)) [Call.printMessages] [commandPrompt]
  | sCommand :: rest, s, cin =>
    let it := loopBody M cfg sCommand s cin
    if it.step.bContinueLoop && !it.broke then
      let r := mainLoop M cfg rest it.step.Map it.step.cin
      Outcome.mk r.exit r.Map (it.step.calls ++ r.calls) (it.step.out ++ r.out)
    else
      Outcome.mk (some 0) (some (M.Quit it.step.Map)) (it.step.calls ++ [Call.Quit]) it.step.out

/-- The window-title escape sequence of main.cpp 105. -/
def titleText : String := "\x1b]2;Termsweeper\x1b\\"

/-- The function `main` from the parameter checks on (main.cpp 88-235), for the values
`cfg` of the three locals. -/
def mainFrom {σ : Type} (M : CMap σ) (cfg : Config) (lines : List CStr) (cin : CStr) :
    Outcome σ :=
  match checkParameters cfg with
  | some msg => Outcome.mk (some 1) none [] [msg]
  | none =>
    let s := M.printMap false (M.Init (CVector.mk cfg.iXSize cfg.iYSize) cfg.iMines M.construct)
    let r := mainLoop M cfg lines s cin
    Outcome.mk r.exit r.Map
      (Call.construct :: Call.Init (CVector.mk cfg.iXSize cfg.iYSize) cfg.iMines ::
        Call.printMap false :: r.calls)
      (titleText :: r.out)

/-- The function `main`: `args` is `args[0 .. argc-1]`, `lines` are the lines `readline`
returns, `cin` the characters `fContinueQuestion` reads. -/
def main {σ : Type} (M : CMap σ) (args : List CStr) (lines : List CStr) (cin : CStr) :
    Outcome σ :=
  match parseArgs args defaults with
  | Parsed.unrecognised c =>
    Outcome.mk (some 1) none []
      ["Unrecognised argument " ++ String.singleton (Char.ofNat c.toNat) ++ "!\n"]
  | Parsed.ok cfg => mainFrom M cfg lines cin

/-! ## An example engine -/

/-- State of the example engine: the field size and the revealed positions. -/
structure ExampleField where
  size : CVector
  revealed : List CVector
  deriving DecidableEq, Repr

/-- Whether a position lies in `[0,width) x [0,height)` of the example field. -/
def ExampleField.inside (f : ExampleField) (p : CVector) : Bool :=
  decide (0 ≤ p.x ∧ p.x < f.size.x ∧ 0 ≤ p.y ∧ p.y < f.size.y)

/-- An example engine, used only to run the engine-generic model on concrete inputs (the
program's own `CMap` is not in `main.cpp`): a field whose single mine is at `A0`.  It
throws `runtime_error` for a position outside the field or already revealed. -/
def exampleMap : CMap ExampleField where
  construct := ExampleField.mk (CVector.mk 0 0) []
  Init := fun size _ _ => ExampleField.mk size []
  Quit := fun _ => ExampleField.mk (CVector.mk 0 0) []
  Try := fun p f =>
    if !f.inside p then (Res.raise (Exn.runtime_error "Position out of range"), f)
    else if p = CVector.mk 0 0 then (Res.ok false, f)
    else if p ∈ f.revealed then (Res.raise (Exn.runtime_error "Field already revealed"), f)
    else (Res.ok true, ExampleField.mk f.size (p :: f.revealed))
  TryAround := fun p f =>
    if !f.inside p then (Res.raise (Exn.runtime_error "Position out of range"), f)
    else (Res.ok true, f)
  Flag := fun p f =>
    if !f.inside p then (Res.raise (Exn.runtime_error "Position out of range"), f)
    else (Res.ok (), f)
  Mark := fun p f =>
    if !f.inside p then (Res.raise (Exn.runtime_error "Position out of range"), f)
    else (Res.ok (), f)
  GameWon := fun f => (decide ((f.revealed.length : Int) + 1 = f.size.x * f.size.y), f)
  printMap := fun _ f => f
  printMessages := fun f => f

/-! ## Predicates on the sequence of engine calls -/

/-- The engine reports the end of a game: `Try` or `TryAround` returned `false` (loss) or
`GameWon()` returned `true`. -/
def isTerminal : Call → Bool
  | Call.Try _ (Res.ok false) => true
  | Call.TryAround _ (Res.ok false) => true
  | Call.GameWon true => true
  | _ => false

/-- The mutating operations of the map: `Try`, `TryAround`, `Flag`, `Mark`, `Quit`, `Init`. -/
def isMutating : Call → Bool
  | Call.Try _ _ => true
  | Call.TryAround _ _ => true
  | Call.Flag _ _ => true
  | Call.Mark _ _ => true
  | Call.Quit => true
  | Call.Init _ _ => true
  | _ => false

/-- The calls `post` that follow the end of a game only re-initialise: the mutating calls
among them are the single `Quit` that ends the program, or start with `Quit` followed by
`Init` with the settings `cfg`. -/
def reinitOnly (cfg : Config) (post : List Call) : Prop :=
  post.filter isMutating = [Call.Quit] ∨
    ∃ rest, post.filter isMutating =
      Call.Quit :: Call.Init (CVector.mk cfg.iXSize cfg.iYSize) cfg.iMines :: rest

/-- Every end of a game in the call sequence is followed by re-initialisation only. -/
def Respects (cfg : Config) : List Call → Prop
  | [] => True
  | e :: post => (isTerminal e = true → reinitOnly cfg post) ∧ Respects cfg post

/-- A call other than `Init`, or `Init` with exactly the settings `cfg`. -/
def initWith (cfg : Config) : Call → Prop
  | Call.Init size mines => size = CVector.mk cfg.iXSize cfg.iYSize ∧ mines = cfg.iMines
  | _ => True

/-- The bounds on the initialisation parameters: `1 < width ≤ 26`, `1 < height ≤ 10`,
`1 ≤ mineCount < width*height`. -/
def withinBounds (width height mineCount : Int) : Prop :=
  (1 < width ∧ width ≤ 26) ∧ (1 < height ∧ height ≤ 10) ∧
    (1 ≤ mineCount ∧ mineCount < width * height)

/-- The first character selects one of the positional commands `T`, `X`, `F`, `?`
(in either case). -/
def isPositional (sCommand : CStr) : Prop :=
  sCommand.headD 0 = 84 ∨ sCommand.headD 0 = 116 ∨ sCommand.headD 0 = 88 ∨
    sCommand.headD 0 = 120 ∨ sCommand.headD 0 = 70 ∨ sCommand.headD 0 = 102 ∨
    sCommand.headD 0 = 63

/-! ## A run of the model -/

/-- The model run on the default field of the example engine with the lines `TB1`, `TZ9`,
the empty line, `T5` and `ta0` (the mine), the continuation question answered `n`. -/
theorem main_example_run :
    main exampleMap [cstr "termsweeper"] [cstr "TB1", cstr "TZ9", cstr "", cstr "T5", cstr "ta0"]
        (cstr "n") =
      Outcome.mk (some 0) (some (ExampleField.mk (CVector.mk 0 0) []))
        [Call.construct, Call.Init (CVector.mk 8 8) 10, Call.printMap false,
          Call.printMessages, Call.Try (CVector.mk 1 1) (Res.ok true), Call.printMap false,
          Call.GameWon false,
          Call.printMessages,
          Call.Try (CVector.mk 25 9) (Res.raise (Exn.runtime_error "Position out of range")),
          Call.GameWon false,
          Call.printMessages,
          Call.printMessages, Call.GameWon false,
          Call.printMessages, Call.Try (CVector.mk 0 0) (Res.ok false), Call.printMap true,
          Call.GameWon false,
          Call.Quit]
        [titleText, commandPrompt, commandPrompt, "Position out of range\n", commandPrompt,
          commandPrompt, "Missing or incomplete Position\n", commandPrompt, "Game Over!\n",
          continuePrompt] := by
  rfl

/-- Values of `atoi` inside and outside the range of `int`. -/
theorem atoi_examples :
    atoi (cstr "9") = 9 ∧ atoi (cstr " -12a") = -12 ∧ atoi (cstr "x") = 0
    ∧ atoi (cstr "2147483647") = 2147483647 ∧ atoi (cstr "2147483648") = -2147483648
    ∧ atoi (cstr "4294967304") = 8 ∧ atoi (cstr "-4294967304") = -8
    ∧ atoi (cstr "99999999999999999999") = -1 ∧ atoi (cstr "-99999999999999999999") = 0 := by
  decide

/-- The argument `-x 4294967304` is stored as `iXSize = 8`: the parameter checks pass, the
map is initialised `8 x 8` with 10 mines, and after the command `q` `main` returns 0. -/
theorem main_example_truncated_argument :
    parseArgs [cstr "termsweeper", cstr "-x", cstr "4294967304"] defaults =
      Parsed.ok (Config.mk 8 8 10)
    ∧ main exampleMap [cstr "termsweeper", cstr "-x", cstr "4294967304"] [cstr "q"] [] =
      Outcome.mk (some 0) (some (ExampleField.mk (CVector.mk 0 0) []))
        [Call.construct, Call.Init (CVector.mk 8 8) 10, Call.printMap false,
          Call.printMessages, Call.GameWon false, Call.Quit]
        [titleText, commandPrompt] := by
  constructor
  · decide
  · rfl

/-! ## Lemmas on `fParsePosition` -/

theorem toupper_sub_nonneg (c : Int) (h : isalpha c = true) :
    0 ≤ toupper c - 65 ∧ toupper c - 65 ≤ 25 := by
  unfold isalpha at h
  unfold toupper
  simp only [decide_eq_true_eq] at h
  split <;> omega

/-- Once both locals are set the loop changes nothing. -/
theorem loop_done (s : CStr) (x y : Int) (hx : 0 ≤ x) (hy : 0 ≤ y) :
    fParsePositionLoop s x y = (x, y) := by
  induction s with
  | nil => rfl
  | cons c rest ih =>
    have h1 : ¬ x < 0 := by omega
    have h2 : ¬ y < 0 := by omega
    simp [fParsePositionLoop, h1, h2, ih]

/-- With `x` set, the loop sets `y` from the first digit, if there is one. -/
theorem loop_x_set (s : CStr) (x : Int) (hx : 0 ≤ x) :
    fParsePositionLoop s x (-1) =
      (x, match s.find? isdigit with | some d => d - 48 | none => -1) := by
  induction s with
  | nil => rfl
  | cons c rest ih =>
    have h1 : ¬ x < 0 := by omega
    by_cases hd : isdigit c = true
    · have hy : (0 : Int) ≤ c - 48 := by
        unfold isdigit at hd
        simp only [decide_eq_true_eq] at hd
        omega
      simp [fParsePositionLoop, h1, hd, loop_done rest x (c - 48) hx hy]
    · simp only [Bool.not_eq_true] at hd
      simp [fParsePositionLoop, h1, hd, ih]

/-- With `y` set, the loop sets `x` from the first letter, if there is one. -/
theorem loop_y_set (s : CStr) (y : Int) (hy : 0 ≤ y) :
    fParsePositionLoop s (-1) y =
      (match s.find? isalpha with | some l => toupper l - 65 | none => -1, y) := by
  induction s with
  | nil => rfl
  | cons c rest ih =>
    have h2 : ¬ y < 0 := by omega
    by_cases ha : isalpha c = true
    · have hx := (toupper_sub_nonneg c ha).1
      simp [fParsePositionLoop, ha, loop_done rest (toupper c - 65) y hx hy]
    · simp only [Bool.not_eq_true] at ha
      simp [fParsePositionLoop, h2, ha, ih]

theorem isalpha_not_isdigit (c : Int) (h : isalpha c = true) : isdigit c = false := by
  unfold isalpha at h
  unfold isdigit
  simp only [decide_eq_true_eq] at h
  simp only [decide_eq_false_iff_not]
  omega

/-- The loop from the initial locals: `x` comes from the first letter, `y` from the first
digit, each `-1` when there is none. -/
theorem loop_init (s : CStr) :
    fParsePositionLoop s (-1) (-1) =
      (match s.find? isalpha with | some l => toupper l - 65 | none => -1,
       match s.find? isdigit with | some d => d - 48 | none => -1) := by
  induction s with
  | nil => rfl
  | cons c rest ih =>
    by_cases ha : isalpha c = true
    · have hx := (toupper_sub_nonneg c ha).1
      have hd := isalpha_not_isdigit c ha
      simp [fParsePositionLoop, ha, hd, loop_x_set rest (toupper c - 65) hx]
    · simp only [Bool.not_eq_true] at ha
      by_cases hd : isdigit c = true
      · have hy : (0 : Int) ≤ c - 48 := by
          unfold isdigit at hd
          simp only [decide_eq_true_eq] at hd
          omega
        simp [fParsePositionLoop, ha, hd, loop_y_set rest (c - 48) hy]
      · simp only [Bool.not_eq_true] at hd
        simp [fParsePositionLoop, ha, hd, ih]

theorem isdigit_range (c : Int) : isdigit c = true ↔ 48 ≤ c ∧ c ≤ 57 := by
  simp [isdigit]

theorem isalpha_range (c : Int) :
    isalpha c = true ↔ (65 ≤ c ∧ c ≤ 90) ∨ (97 ≤ c ∧ c ≤ 122) := by
  simp [isalpha]

/-- Closed form of `fParsePosition` on a non-empty string: the first letter and the first
digit after the command character decide the result. -/
theorem fParsePosition_cons (c : Int) (rest : CStr) :
    fParsePosition (c :: rest) =
      match rest.find? isalpha, rest.find? isdigit with
      | some l, some d => Res.ok (CVector.mk (toupper l - 65) (d - 48))
      | _, _ => Res.raise (Exn.runtime_error "Missing or incomplete Position") := by
  unfold fParsePosition
  simp only [List.length_cons, List.tail_cons, loop_init]
  have h0 : ¬ (rest.length + 1 < 1) := by omega
  simp only [h0, if_false]
  cases ha : rest.find? isalpha with
  | none => simp
  | some l =>
    have hl := toupper_sub_nonneg l (List.find?_some ha)
    cases hd : rest.find? isdigit with
    | none => simp
    | some d =>
      have hdr := (isdigit_range d).1 (List.find?_some hd)
      have h1 : ¬ (toupper l - 65 < 0 ∨ d - 48 < 0) := by omega
      simp only [h1, if_false]

theorem find_isSome_iff (p : Int → Bool) (s : CStr) :
    (∃ a, s.find? p = some a) ↔ ∃ c ∈ s, p c = true := by
  constructor
  · rintro ⟨a, ha⟩
    exact ⟨a, List.mem_of_find?_eq_some ha, List.find?_some ha⟩
  · rintro ⟨c, hc, hp⟩
    cases h : s.find? p with
    | some a => exact ⟨a, rfl⟩
    | none =>
      rw [List.find?_eq_none] at h
      exact absurd hp (h c hc)

/-- A position is returned exactly when a letter and a digit follow the first character. -/
theorem fParsePosition_ok_iff (input : CStr) :
    (∃ p, fParsePosition input = Res.ok p) ↔
      (∃ c ∈ input.tail, isalpha c = true) ∧ (∃ c ∈ input.tail, isdigit c = true) := by
  cases input with
  | nil => simp [fParsePosition]
  | cons c rest =>
    rw [fParsePosition_cons, ← find_isSome_iff, ← find_isSome_iff, List.tail_cons]
    cases ha : rest.find? isalpha <;> cases hd : rest.find? isdigit <;> simp

/-- Every position `fParsePosition` returns has `0 ≤ x ≤ 25` and `0 ≤ y ≤ 9`. -/
theorem fParsePosition_range (input : CStr) (p : CVector) (h : fParsePosition input = Res.ok p) :
    0 ≤ p.x ∧ p.x ≤ 25 ∧ 0 ≤ p.y ∧ p.y ≤ 9 := by
  cases input with
  | nil => simp [fParsePosition] at h
  | cons c rest =>
    rw [fParsePosition_cons] at h
    cases ha : rest.find? isalpha with
    | none => simp [ha] at h
    | some l =>
      cases hd : rest.find? isdigit with
      | none => simp [ha, hd] at h
      | some d =>
        simp only [ha, hd, Res.ok.injEq] at h
        have hl := toupper_sub_nonneg l (List.find?_some ha)
        have hdr := (isdigit_range d).1 (List.find?_some hd)
        subst h
        simp only
        omega

/-! ## The claims about `fParsePosition` -/

/-- C3: `fParsePosition` returns a position if and only if the characters after the first
contain an ASCII letter and a decimal digit; on the empty string it throws
`invalid_argument`, on a non-empty string lacking the letter or the digit it throws
`runtime_error("Missing or incomplete Position")`; and the result never depends on the
first (command) character, which is therefore never taken as a coordinate. -/
theorem C3_fParsePosition_fails_exactly_on_malformed (input : CStr) :
    ((∃ p, fParsePosition input = Res.ok p) ↔
      ((∃ c ∈ input.tail, (65 ≤ c ∧ c ≤ 90) ∨ (97 ≤ c ∧ c ≤ 122)) ∧
       (∃ c ∈ input.tail, 48 ≤ c ∧ c ≤ 57)))
    ∧ (input = [] →
        fParsePosition input = Res.raise (Exn.invalid_argument "#0 at fParsePosition"))
    ∧ (input ≠ [] →
        ¬ ((∃ c ∈ input.tail, (65 ≤ c ∧ c ≤ 90) ∨ (97 ≤ c ∧ c ≤ 122)) ∧
           (∃ c ∈ input.tail, 48 ≤ c ∧ c ≤ 57)) →
        fParsePosition input = Res.raise (Exn.runtime_error "Missing or incomplete Position"))
    ∧ (∀ (c d : Int) (rest : CStr), fParsePosition (c :: rest) = fParsePosition (d :: rest)) := by
  have hiff := fParsePosition_ok_iff input
  simp only [isalpha_range, isdigit_range] at hiff
  refine ⟨hiff, ?_, ?_, ?_⟩
  · intro h
    subst h
    rfl
  · intro hne hno
    rw [← hiff] at hno
    cases input with
    | nil => exact absurd rfl hne
    | cons c rest =>
      rw [fParsePosition_cons] at hno ⊢
      cases ha : rest.find? isalpha <;> cases hd : rest.find? isdigit <;> simp [ha, hd] at hno ⊢
  · intro c d rest
    rw [fParsePosition_cons, fParsePosition_cons]

/-- C7: when the characters after the command character have `L` as first letter and `D`
as first digit, `fParsePosition` returns `(k, d)` with `k` the 0-based alphabet index of
`L` (`A`/`a` is 0, `Z`/`z` is 25) and `d` the value of the digit `D`, wherever the letter
stands relative to the digit; and for every command character, letter and digit the lines
`c L D` and `c D L` parse to the same position. -/
theorem C7_order_of_components_irrelevant (c : Int) (rest : CStr) (L D : Int)
    (hL : rest.find? isalpha = some L) (hD : rest.find? isdigit = some D) :
    (∃ k d : Int, 0 ≤ k ∧ k ≤ 25 ∧ 0 ≤ d ∧ d ≤ 9 ∧ (L = 65 + k ∨ L = 97 + k) ∧ D = 48 + d ∧
      fParsePosition (c :: rest) = Res.ok (CVector.mk k d))
    ∧ (∀ c2 L2 D2 : Int, isalpha L2 = true → isdigit D2 = true →
        fParsePosition [c2, L2, D2] = fParsePosition [c2, D2, L2] ∧
        fParsePosition [c2, L2, D2] = Res.ok (CVector.mk (toupper L2 - 65) (D2 - 48))) := by
  have hl := (isalpha_range L).1 (List.find?_some hL)
  have hd := (isdigit_range D).1 (List.find?_some hD)
  have hLa : isalpha L = true := List.find?_some hL
  constructor
  · refine ⟨toupper L - 65, D - 48, ?_, ?_, ?_, ?_, ?_, ?_, ?_⟩
    · exact (toupper_sub_nonneg L hLa).1
    · exact (toupper_sub_nonneg L hLa).2
    · omega
    · omega
    · unfold toupper
      split <;> omega
    · omega
    · rw [fParsePosition_cons, hL, hD]
  · intro c2 L2 D2 hLa2 hDd2
    have hLd2 : isdigit L2 = false := isalpha_not_isdigit L2 hLa2
    have hDa2 : isalpha D2 = false := by
      cases h : isalpha D2 with
      | false => rfl
      | true => rw [isalpha_not_isdigit D2 h] at hDd2; exact absurd hDd2 (by decide)
    rw [fParsePosition_cons, fParsePosition_cons]
    simp [List.find?, hLa2, hDd2, hLd2, hDa2]

/-- Witness of C7 on the line `T9z`: first letter `z`, first digit `9`. -/
theorem C7_order_of_components_irrelevant_witness :
    (∃ k d : Int, 0 ≤ k ∧ k ≤ 25 ∧ 0 ≤ d ∧ d ≤ 9 ∧ ((122 : Int) = 65 + k ∨ (122 : Int) = 97 + k) ∧
      (57 : Int) = 48 + d ∧ fParsePosition (84 :: cstr "9z") = Res.ok (CVector.mk k d))
    ∧ (∀ c2 L2 D2 : Int, isalpha L2 = true → isdigit D2 = true →
        fParsePosition [c2, L2, D2] = fParsePosition [c2, D2, L2] ∧
        fParsePosition [c2, L2, D2] = Res.ok (CVector.mk (toupper L2 - 65) (D2 - 48))) :=
  C7_order_of_components_irrelevant 84 (cstr "9z") 122 57 (by decide) (by decide)

/-- C10: for every field size the parameter checks accept and every cell `(x, y)` of that
field, each command character followed by a suitable letter and digit parses to exactly
`(x, y)`; and every position `fParsePosition` returns has `0 ≤ x ≤ 25` and `0 ≤ y ≤ 9`. -/
theorem C10_every_cell_addressable (cfg : Config) (hcfg : checkParameters cfg = none)
    (x y : Int) (hx : 0 ≤ x ∧ x < cfg.iXSize) (hy : 0 ≤ y ∧ y < cfg.iYSize) :
    (∀ c : Int, ∃ L D : Int, isalpha L = true ∧ isdigit D = true ∧
      fParsePosition [c, L, D] = Res.ok (CVector.mk x y))
    ∧ (∀ (input : CStr) (p : CVector), fParsePosition input = Res.ok p →
        0 ≤ p.x ∧ p.x ≤ 25 ∧ 0 ≤ p.y ∧ p.y ≤ 9) := by
  have hb : (1 < cfg.iXSize ∧ cfg.iXSize ≤ 26) ∧ (1 < cfg.iYSize ∧ cfg.iYSize ≤ 10) := by
    unfold checkParameters at hcfg
    split at hcfg
    · simp at hcfg
    · split at hcfg
      · simp at hcfg
      · omega
  constructor
  · intro c
    have hLa : isalpha (65 + x) = true := by
      rw [isalpha_range]; omega
    have hDd : isdigit (48 + y) = true := by
      rw [isdigit_range]; omega
    refine ⟨65 + x, 48 + y, hLa, hDd, ?_⟩
    rw [fParsePosition_cons]
    have hLd := isalpha_not_isdigit (65 + x) hLa
    have hu : toupper (65 + x) = 65 + x := by
      unfold toupper
      split <;> omega
    simp [List.find?, hLa, hDd, hLd, hu]
  · intro input p h
    exact fParsePosition_range input p h

/-- Witness of C10: the cell `(7, 7)` of the default `8 x 8` field. -/
theorem C10_every_cell_addressable_witness :
    (∀ c : Int, ∃ L D : Int, isalpha L = true ∧ isdigit D = true ∧
      fParsePosition [c, L, D] = Res.ok (CVector.mk 7 7))
    ∧ (∀ (input : CStr) (p : CVector), fParsePosition input = Res.ok p →
        0 ≤ p.x ∧ p.x ≤ 25 ∧ 0 ≤ p.y ∧ p.y ≤ 9) :=
  C10_every_cell_addressable defaults (by decide) 7 7 (by decide) (by decide)

/-! ## Lemmas on the parameter checks and the argument loop -/

/-- The parameter checks pass exactly on the documented bounds; the 32-bit product never
wraps where it is evaluated. -/
theorem checkParameters_none_iff (cfg : Config) :
    checkParameters cfg = none ↔
      (1 < cfg.iXSize ∧ cfg.iXSize ≤ 26) ∧ (1 < cfg.iYSize ∧ cfg.iYSize ≤ 10) ∧
        (1 ≤ cfg.iMines ∧ cfg.iMines < cfg.iXSize * cfg.iYSize) := by
  unfold checkParameters
  by_cases hx : cfg.iXSize ≤ 1 ∨ cfg.iXSize > 26
  · simp only [hx, if_true]
    constructor
    · intro h; simp at h
    · intro h; omega
  · by_cases hy : cfg.iYSize ≤ 1 ∨ cfg.iYSize > 10
    · simp only [hx, hy, if_true, if_false]
      constructor
      · intro h; simp at h
      · intro h; omega
    · have hprod : mulInt cfg.iXSize cfg.iYSize = cfg.iXSize * cfg.iYSize := by
        unfold mulInt wrapInt
        have h1 : 0 ≤ cfg.iXSize * cfg.iYSize := by
          apply Int.mul_nonneg <;> omega
        have h2 : cfg.iXSize * cfg.iYSize ≤ 26 * 10 := by
          apply Int.mul_le_mul <;> omega
        omega
      rw [hprod]
      by_cases hm : cfg.iMines < 1 ∨ cfg.iMines ≥ cfg.iXSize * cfg.iYSize
      · simp only [hx, hy, hm, if_true, if_false]
        constructor
        · intro h; simp at h
        · intro h; omega
      · simp only [hx, hy, hm, if_false, true_iff]
        omega

/-- Arguments none of which starts with `-` leave the three locals as they are. -/
theorem parseArgs_no_dash (args : List CStr) (cfg : Config)
    (h : ∀ a ∈ args, a.headD 0 ≠ 45) : parseArgs args cfg = Parsed.ok cfg := by
  induction args with
  | nil => rfl
  | cons a rest ih =>
    have ha : ¬ (a.headD 0 = 45) := h a (List.mem_cons_self a rest)
    have hr : ∀ b ∈ rest, b.headD 0 ≠ 45 := fun b hb => h b (List.mem_cons_of_mem a hb)
    have step : parseArgs (a :: rest) cfg = parseArgs rest cfg := by
      cases rest <;> simp only [parseArgs, if_neg ha]
    rw [step]
    exact ih hr

/-- The argument loop on a list that continues with `more`. -/
theorem parseArgs_append_no_dash (args more : List CStr) (cfg : Config)
    (h : ∀ a ∈ args, a.headD 0 ≠ 45) : parseArgs (args ++ more) cfg = parseArgs more cfg := by
  induction args with
  | nil => rfl
  | cons a rest ih =>
    have ha : ¬ (a.headD 0 = 45) := h a (List.mem_cons_self a rest)
    have hr : ∀ b ∈ rest, b.headD 0 ≠ 45 := fun b hb => h b (List.mem_cons_of_mem a hb)
    have step : parseArgs (a :: (rest ++ more)) cfg = parseArgs (rest ++ more) cfg := by
      cases rest ++ more <;> simp only [parseArgs, if_neg ha]
    rw [List.cons_append, step]
    exact ih hr

/-- An `-x`, `-y` or `-m` that is the last argument changes none of the locals. -/
theorem parseArgs_last_option (opt : CStr) (cfg : Config) (h0 : opt.headD 0 = 45)
    (h1 : opt.getD 1 0 = 120 ∨ opt.getD 1 0 = 121 ∨ opt.getD 1 0 = 109) :
    parseArgs [opt] cfg = Parsed.ok cfg := by
  rcases h1 with h | h | h <;> rw [parseArgs, if_pos h0] <;> simp only [h] <;> rfl

/-! ## Lemmas on the command loop -/

theorem respects_restartCalls (cfg : Config) (tl : List Call) (htl : Respects cfg tl) :
    Respects cfg (restartCalls cfg ++ tl) := by
  simp [restartCalls, Respects, isTerminal, htl]

theorem reinitOnly_restartCalls (cfg : Config) (tl : List Call) :
    reinitOnly cfg (restartCalls cfg ++ tl) := by
  simp [restartCalls, reinitOnly, isMutating]

/-- The `T`/`X` block: its calls, followed by calls that respect ends of games (and that
only re-initialise when the block cleared `bContinueLoop`), respect them. -/
theorem tryCase_respects {σ : Type} (M : CMap σ) (cfg : Config)
    (op : CVector → σ → Res Bool × σ) (ev : CVector → Res Bool → Call)
    (hev : ∀ p r, isTerminal (ev p r) = true → r = Res.ok false)
    (sCommand : CStr) (s : σ) (cin : CStr) (tl : List Call) (htl : Respects cfg tl)
    (hexit : (tryCase M cfg op ev sCommand s cin).bContinueLoop = false → reinitOnly cfg tl) :
    Respects cfg ((tryCase M cfg op ev sCommand s cin).calls ++ tl) := by
  unfold tryCase at hexit ⊢
  cases hp : fParsePosition sCommand with
  | raise e => simpa using htl
  | ok pos =>
    simp only [hp] at hexit ⊢
    rcases hop : op pos s with ⟨r, s1⟩
    simp only [hop] at hexit ⊢
    rcases r with b | e
    · cases b
      · simp only at hexit ⊢
        cases hq : (fContinueQuestion cin).1
        · simp only [hq, Bool.false_eq_true, if_false, List.cons_append, List.nil_append,
            forall_const] at hexit ⊢
          refine ⟨fun _ => ?_, ?_, htl⟩
          · simpa [reinitOnly, isMutating] using hexit
          · intro h; simp [isTerminal] at h
        · simp only [if_true, List.cons_append]
          refine ⟨fun _ => ?_, ?_, respects_restartCalls cfg tl htl⟩
          · have h := reinitOnly_restartCalls cfg tl
            simpa [reinitOnly, isMutating] using h
          · intro h; simp [isTerminal] at h
      · simp only [List.cons_append, List.nil_append]
        refine ⟨fun h => ?_, ?_, htl⟩
        · have := hev pos (Res.ok true) h
          simp at this
        · intro h; simp [isTerminal] at h
    · simp only [List.cons_append, List.nil_append]
      refine ⟨fun h => ?_, htl⟩
      have := hev pos (Res.raise e) h
      simp at this

/-- The `F`/`?` block makes no call that ends a game. -/
theorem flagCase_respects {σ : Type} (M : CMap σ) (cfg : Config)
    (op : CVector → σ → Res Unit × σ) (ev : CVector → Res Unit → Call)
    (hev : ∀ p r, isTerminal (ev p r) = false)
    (sCommand : CStr) (s : σ) (cin : CStr) (tl : List Call) (htl : Respects cfg tl) :
    Respects cfg ((flagCase M op ev sCommand s cin).calls ++ tl) := by
  unfold flagCase
  cases hp : fParsePosition sCommand with
  | raise e => simpa using htl
  | ok pos =>
    simp only
    rcases hop : op pos s with ⟨r, s1⟩
    rcases r with u | e
    · have hpm : ∀ b, isTerminal (Call.printMap b) = false := fun _ => rfl
      simp [Respects, hev, hpm, htl]
    · simp [Respects, hev, htl]

/-- The `switch`: its calls, followed by calls that respect ends of games (and that only
re-initialise when the `switch` cleared `bContinueLoop`), respect them. -/
theorem dispatch_respects {σ : Type} (M : CMap σ) (cfg : Config) (sCommand : CStr) (s : σ)
    (cin : CStr) (tl : List Call) (htl : Respects cfg tl)
    (hexit : (dispatch M cfg sCommand s cin).bContinueLoop = false → reinitOnly cfg tl) :
    Respects cfg ((dispatch M cfg sCommand s cin).calls ++ tl) := by
  unfold dispatch at hexit ⊢
  cases hc : commandOf (sCommand.headD 0) <;> simp only [hc] at hexit ⊢
  · apply tryCase_respects M cfg M.Try Call.Try _ sCommand s cin tl htl hexit
    intro p r h
    rcases r with b | e
    · cases b
      · rfl
      · simp [isTerminal] at h
    · simp [isTerminal] at h
  · exact flagCase_respects M cfg M.Flag Call.Flag (fun _ _ => rfl) sCommand s cin tl htl
  · exact flagCase_respects M cfg M.Mark Call.Mark (fun _ _ => rfl) sCommand s cin tl htl
  · apply tryCase_respects M cfg M.TryAround Call.TryAround _ sCommand s cin tl htl hexit
    intro p r h
    rcases r with b | e
    · cases b
      · rfl
      · simp [isTerminal] at h
    · simp [isTerminal] at h
  · simpa using htl
  · simpa using htl
  · simp [Respects, isTerminal, htl]
  · exact respects_restartCalls cfg tl htl
  · simpa using htl

theorem respects_quit (cfg : Config) : Respects cfg [Call.Quit] := by
  simp [Respects, isTerminal]

theorem reinitOnly_quit (cfg : Config) : reinitOnly cfg [Call.Quit] := by
  simp [reinitOnly, isMutating]

/-- The `GameWon` block after a `switch` whose calls respect ends of games. -/
theorem wonCheck_respects {σ : Type} (M : CMap σ) (cfg : Config) (d : Step σ)
    (hd : ∀ tl, Respects cfg tl → (d.bContinueLoop = false → reinitOnly cfg tl) →
      Respects cfg (d.calls ++ tl))
    (tl : List Call) (htl : Respects cfg tl)
    (hexit : ((wonCheck M cfg d).step.bContinueLoop && !(wonCheck M cfg d).broke) = false →
      tl = [Call.Quit]) :
    Respects cfg ((wonCheck M cfg d).step.calls ++ tl) := by
  unfold wonCheck at hexit ⊢
  cases hg : (M.GameWon d.Map).1
  · simp only [hg, Bool.false_eq_true, if_false, Bool.not_false, Bool.and_true,
      List.append_assoc, List.singleton_append] at hexit ⊢
    apply hd
    · exact ⟨fun h => by simp [isTerminal] at h, htl⟩
    · intro hb
      rw [hexit hb]
      simp [reinitOnly, isMutating]
  · cases hq : (fContinueQuestion d.cin).1
    · simp only [hg, hq, if_true, Bool.false_eq_true, if_false, Bool.not_true, Bool.and_false,
        List.append_assoc, List.singleton_append, forall_const] at hexit ⊢
      subst hexit
      apply hd
      · exact ⟨fun _ => reinitOnly_quit cfg, respects_quit cfg⟩
      · intro _
        simp [reinitOnly, isMutating]
    · simp only [hg, hq, if_true, List.append_assoc, List.cons_append]
      apply hd
      · exact ⟨fun _ => reinitOnly_restartCalls cfg tl, respects_restartCalls cfg tl htl⟩
      · intro _
        have h := reinitOnly_restartCalls cfg tl
        simpa [reinitOnly, isMutating] using h

/-- One pass of the loop body, followed by calls that respect ends of games and that are
the final `Quit` when the pass leaves the loop. -/
theorem loopBody_respects {σ : Type} (M : CMap σ) (cfg : Config) (sCommand : CStr)
    (s : σ) (cin : CStr) (tl : List Call) (htl : Respects cfg tl)
    (hexit : ((loopBody M cfg sCommand s cin).step.bContinueLoop &&
      !(loopBody M cfg sCommand s cin).broke) = false → tl = [Call.Quit]) :
    Respects cfg ((loopBody M cfg sCommand s cin).step.calls ++ tl) := by
  unfold loopBody commandStep at hexit ⊢
  by_cases hlen : sCommand.length < 1
  · simp only [hlen, if_true, List.cons_append, List.nil_append]
    exact ⟨fun h => by simp [isTerminal] at h, htl⟩
  · simp only [hlen, if_false, List.cons_append] at hexit ⊢
    refine ⟨fun h => by simp [isTerminal] at h, ?_⟩
    exact wonCheck_respects M cfg _ (fun tl2 h1 h2 => dispatch_respects M cfg _ _ _ tl2 h1 h2)
      tl htl hexit

theorem mainLoop_cons_go {σ : Type} (M : CMap σ) (cfg : Config) (l : CStr) (rest : List CStr)
    (s : σ) (cin : CStr)
    (h : ((loopBody M cfg l s cin).step.bContinueLoop && !(loopBody M cfg l s cin).broke) = true) :
    mainLoop M cfg (l :: rest) s cin =
      Outcome.mk
        (mainLoop M cfg rest (loopBody M cfg l s cin).step.Map (loopBody M cfg l s cin).step.cin).exit
        (mainLoop M cfg rest (loopBody M cfg l s cin).step.Map (loopBody M cfg l s cin).step.cin).Map
        ((loopBody M cfg l s cin).step.calls ++
          (mainLoop M cfg rest (loopBody M cfg l s cin).step.Map
            (loopBody M cfg l s cin).step.cin).calls)
        ((loopBody M cfg l s cin).step.out ++
          (mainLoop M cfg rest (loopBody M cfg l s cin).step.Map
            (loopBody M cfg l s cin).step.cin).out) := by
  rw [mainLoop]
  simp only [h, if_true]

theorem mainLoop_cons_stop {σ : Type} (M : CMap σ) (cfg : Config) (l : CStr) (rest : List CStr)
    (s : σ) (cin : CStr)
    (h : ((loopBody M cfg l s cin).step.bContinueLoop && !(loopBody M cfg l s cin).broke) = false) :
    mainLoop M cfg (l :: rest) s cin =
      Outcome.mk (some 0) (some (M.Quit (loopBody M cfg l s cin).step.Map))
        ((loopBody M cfg l s cin).step.calls ++ [Call.Quit]) (loopBody M cfg l s cin).step.out := by
  rw [mainLoop]
  simp only [h, Bool.false_eq_true, if_false]

/-- Every run of the loop respects ends of games. -/
theorem mainLoop_respects {σ : Type} (M : CMap σ) (cfg : Config) (lines : List CStr) :
    ∀ (s : σ) (cin : CStr), Respects cfg (mainLoop M cfg lines s cin).calls := by
  induction lines with
  | nil =>
    intro s cin
    simp [mainLoop, Respects, isTerminal]
  | cons l rest ih =>
    intro s cin
    cases hgo : ((loopBody M cfg l s cin).step.bContinueLoop && !(loopBody M cfg l s cin).broke)
    · rw [mainLoop_cons_stop M cfg l rest s cin hgo]
      exact loopBody_respects M cfg l s cin [Call.Quit] (respects_quit cfg) (fun _ => rfl)
    · rw [mainLoop_cons_go M cfg l rest s cin hgo]
      apply loopBody_respects M cfg l s cin _ (ih _ _)
      intro h
      rw [hgo] at h
      exact absurd h (by decide)

/-- In a call sequence that respects ends of games, what follows an end of a game only
re-initialises. -/
theorem respects_split (cfg : Config) (pre : List Call) :
    ∀ (l : List Call) (e : Call) (post : List Call), Respects cfg l → l = pre ++ e :: post →
      isTerminal e = true → reinitOnly cfg post := by
  induction pre with
  | nil =>
    intro l e post hl heq he
    subst heq
    exact hl.1 he
  | cons a pre ih =>
    intro l e post hl heq he
    subst heq
    exact ih _ e post hl.2 rfl he

theorem mainFrom_respects {σ : Type} (M : CMap σ) (cfg : Config) (lines : List CStr)
    (cin : CStr) : Respects cfg (mainFrom M cfg lines cin).calls := by
  unfold mainFrom
  cases checkParameters cfg with
  | some msg => simp [Respects]
  | none =>
    simp only [Respects]
    refine ⟨fun h => by simp [isTerminal] at h, fun h => by simp [isTerminal] at h,
      fun h => by simp [isTerminal] at h, mainLoop_respects M cfg lines _ _⟩

/-! ## Every `Init` uses the settings -/

theorem restartCalls_initWith (cfg : Config) : ∀ e ∈ restartCalls cfg, initWith cfg e := by
  unfold restartCalls
  simp only [List.forall_mem_cons]
  exact ⟨trivial, ⟨rfl, rfl⟩, trivial, by simp⟩

theorem tryCase_initWith {σ : Type} (M : CMap σ) (cfg : Config)
    (op : CVector → σ → Res Bool × σ) (ev : CVector → Res Bool → Call)
    (hev : ∀ p r, initWith cfg (ev p r)) (sCommand : CStr) (s : σ) (cin : CStr) :
    ∀ e ∈ (tryCase M cfg op ev sCommand s cin).calls, initWith cfg e := by
  unfold tryCase
  cases hp : fParsePosition sCommand with
  | raise e => simp
  | ok pos =>
    simp only
    rcases hop : op pos s with ⟨r, s1⟩
    rcases r with b | e
    · cases b
      · cases hq : (fContinueQuestion cin).1
        · simp only [Bool.false_eq_true, if_false, List.forall_mem_cons]
          exact ⟨hev _ _, trivial, by simp⟩
        · simp only [if_true, List.forall_mem_cons]
          exact ⟨hev _ _, trivial, restartCalls_initWith cfg⟩
      · simp only [List.forall_mem_cons]
        exact ⟨hev _ _, trivial, by simp⟩
    · simp only [List.forall_mem_cons]
      exact ⟨hev _ _, by simp⟩

theorem flagCase_initWith {σ : Type} (M : CMap σ) (cfg : Config)
    (op : CVector → σ → Res Unit × σ) (ev : CVector → Res Unit → Call)
    (hev : ∀ p r, initWith cfg (ev p r)) (sCommand : CStr) (s : σ) (cin : CStr) :
    ∀ e ∈ (flagCase M op ev sCommand s cin).calls, initWith cfg e := by
  unfold flagCase
  cases hp : fParsePosition sCommand with
  | raise e => simp
  | ok pos =>
    simp only
    rcases hop : op pos s with ⟨r, s1⟩
    rcases r with u | e
    · simp only [List.forall_mem_cons]
      exact ⟨hev _ _, trivial, by simp⟩
    · simp only [List.forall_mem_cons]
      exact ⟨hev _ _, by simp⟩

theorem dispatch_initWith {σ : Type} (M : CMap σ) (cfg : Config) (sCommand : CStr) (s : σ)
    (cin : CStr) : ∀ e ∈ (dispatch M cfg sCommand s cin).calls, initWith cfg e := by
  unfold dispatch
  cases hc : commandOf (sCommand.headD 0) <;> simp only
  · exact tryCase_initWith M cfg M.Try Call.Try (fun _ _ => trivial) sCommand s cin
  · exact flagCase_initWith M cfg M.Flag Call.Flag (fun _ _ => trivial) sCommand s cin
  · exact flagCase_initWith M cfg M.Mark Call.Mark (fun _ _ => trivial) sCommand s cin
  · exact tryCase_initWith M cfg M.TryAround Call.TryAround (fun _ _ => trivial) sCommand s cin
  · simp
  · simp
  · simp [initWith]
  · exact restartCalls_initWith cfg
  · simp

theorem loopBody_initWith {σ : Type} (M : CMap σ) (cfg : Config) (sCommand : CStr) (s : σ)
    (cin : CStr) : ∀ e ∈ (loopBody M cfg sCommand s cin).step.calls, initWith cfg e := by
  have hd := dispatch_initWith M cfg sCommand (M.printMessages s) cin
  unfold loopBody commandStep wonCheck
  by_cases hlen : sCommand.length < 1
  · simp [hlen, initWith]
  · simp only [hlen, if_false]
    cases hg : (M.GameWon (dispatch M cfg sCommand (M.printMessages s) cin).Map).1
    · simp only [Bool.false_eq_true, if_false, List.forall_mem_cons, List.forall_mem_append]
      exact ⟨trivial, hd, trivial, by simp⟩
    · cases hq : (fContinueQuestion (dispatch M cfg sCommand (M.printMessages s) cin).cin).1
      · simp only [if_true, Bool.false_eq_true, if_false, List.forall_mem_cons,
          List.forall_mem_append]
        exact ⟨trivial, hd, trivial, by simp⟩
      · simp only [if_true, List.forall_mem_cons, List.forall_mem_append]
        exact ⟨trivial, hd, trivial, restartCalls_initWith cfg⟩

theorem mainLoop_initWith {σ : Type} (M : CMap σ) (cfg : Config) (lines : List CStr) :
    ∀ (s : σ) (cin : CStr), ∀ e ∈ (mainLoop M cfg lines s cin).calls, initWith cfg e := by
  induction lines with
  | nil =>
    intro s cin
    simp [mainLoop, initWith]
  | cons l rest ih =>
    intro s cin e he
    cases hgo : ((loopBody M cfg l s cin).step.bContinueLoop && !(loopBody M cfg l s cin).broke)
    · rw [mainLoop_cons_stop M cfg l rest s cin hgo] at he
      simp only [List.mem_append, List.mem_singleton] at he
      rcases he with h | h
      · exact loopBody_initWith M cfg l s cin e h
      · subst h; trivial
    · rw [mainLoop_cons_go M cfg l rest s cin hgo] at he
      simp only [List.mem_append] at he
      rcases he with h | h
      · exact loopBody_initWith M cfg l s cin e h
      · exact ih _ _ e h

/-- The loop never returns the exit code 1. -/
theorem mainLoop_exit {σ : Type} (M : CMap σ) (cfg : Config) (lines : List CStr) :
    ∀ (s : σ) (cin : CStr), (mainLoop M cfg lines s cin).exit = none ∨
      (mainLoop M cfg lines s cin).exit = some 0 := by
  induction lines with
  | nil =>
    intro s cin
    simp [mainLoop]
  | cons l rest ih =>
    intro s cin
    cases hgo : ((loopBody M cfg l s cin).step.bContinueLoop && !(loopBody M cfg l s cin).broke)
    · rw [mainLoop_cons_stop M cfg l rest s cin hgo]
      simp
    · rw [mainLoop_cons_go M cfg l rest s cin hgo]
      exact ih _ _

theorem mainFrom_valid {σ : Type} (M : CMap σ) (cfg : Config) (lines : List CStr) (cin : CStr)
    (h : checkParameters cfg = none) :
    mainFrom M cfg lines cin =
      Outcome.mk
        (mainLoop M cfg lines
          (M.printMap false (M.Init (CVector.mk cfg.iXSize cfg.iYSize) cfg.iMines M.construct))
          cin).exit
        (mainLoop M cfg lines
          (M.printMap false (M.Init (CVector.mk cfg.iXSize cfg.iYSize) cfg.iMines M.construct))
          cin).Map
        (Call.construct :: Call.Init (CVector.mk cfg.iXSize cfg.iYSize) cfg.iMines ::
          Call.printMap false ::
          (mainLoop M cfg lines
            (M.printMap false (M.Init (CVector.mk cfg.iXSize cfg.iYSize) cfg.iMines M.construct))
            cin).calls)
        (titleText ::
          (mainLoop M cfg lines
            (M.printMap false (M.Init (CVector.mk cfg.iXSize cfg.iYSize) cfg.iMines M.construct))
            cin).out) := by
  unfold mainFrom
  rw [h]

theorem mainFrom_invalid {σ : Type} (M : CMap σ) (cfg : Config) (lines : List CStr) (cin : CStr)
    (h : checkParameters cfg ≠ none) :
    (mainFrom M cfg lines cin).exit = some 1 ∧ (mainFrom M cfg lines cin).Map = none ∧
      (mainFrom M cfg lines cin).calls = [] := by
  unfold mainFrom
  cases hc : checkParameters cfg with
  | none => exact absurd hc h
  | some msg => exact ⟨rfl, rfl, rfl⟩

theorem mainFrom_initWith {σ : Type} (M : CMap σ) (cfg : Config) (lines : List CStr)
    (cin : CStr) : ∀ e ∈ (mainFrom M cfg lines cin).calls, initWith cfg e := by
  cases hc : checkParameters cfg with
  | some msg =>
    have h := (mainFrom_invalid M cfg lines cin (by rw [hc]; simp)).2.2
    rw [h]
    simp
  | none =>
    rw [mainFrom_valid M cfg lines cin hc]
    simp only [List.forall_mem_cons]
    exact ⟨trivial, ⟨rfl, rfl⟩, trivial, mainLoop_initWith M cfg lines _ _⟩

theorem main_of_parsed {σ : Type} (M : CMap σ) (args : List CStr) (lines : List CStr)
    (cin : CStr) (cfg : Config) (h : parseArgs args defaults = Parsed.ok cfg) :
    main M args lines cin = mainFrom M cfg lines cin := by
  unfold main
  rw [h]

theorem commandOf_T (c : Int) (h : c = 84 ∨ c = 116) : commandOf c = Command.T := by
  rcases h with h | h <;> subst h <;> decide

theorem commandOf_X (c : Int) (h : c = 88 ∨ c = 120) : commandOf c = Command.X := by
  rcases h with h | h <;> subst h <;> decide

theorem commandOf_F (c : Int) (h : c = 70 ∨ c = 102) : commandOf c = Command.F := by
  rcases h with h | h <;> subst h <;> decide

theorem commandOf_mark (c : Int) (h : c = 63) : commandOf c = Command.mark := by
  subst h; decide

/-! ## The claims about `main` -/

/-- C1: for the values `(iXSize, iYSize, iMines)` that the argument loop produces, `main`
calls `Map.Init` if and only if `1 < width ≤ 26`, `1 < height ≤ 10` and
`1 ≤ mineCount < width*height`; then the map is constructed and initialised with exactly
these values at startup, and every later `Init` (restart) uses the same three values; when a
bound is violated `main` returns 1 with no map constructed and no engine call at all (so the
command loop, whose first action is `Map.printMessages()`, is not entered). -/
theorem C1_init_only_with_validated_parameters {σ : Type} (M : CMap σ) (args : List CStr)
    (lines : List CStr) (cin : CStr) (cfg : Config)
    (hargs : parseArgs args defaults = Parsed.ok cfg) :
    ((∃ size mines, Call.Init size mines ∈ (main M args lines cin).calls) ↔
      withinBounds cfg.iXSize cfg.iYSize cfg.iMines)
    ∧ (withinBounds cfg.iXSize cfg.iYSize cfg.iMines →
        ∃ more, (main M args lines cin).calls =
          Call.construct :: Call.Init (CVector.mk cfg.iXSize cfg.iYSize) cfg.iMines :: more)
    ∧ (∀ size mines, Call.Init size mines ∈ (main M args lines cin).calls →
        size = CVector.mk cfg.iXSize cfg.iYSize ∧ mines = cfg.iMines)
    ∧ (¬ withinBounds cfg.iXSize cfg.iYSize cfg.iMines →
        (main M args lines cin).exit = some 1 ∧ (main M args lines cin).Map = none ∧
          (main M args lines cin).calls = []) := by
  rw [main_of_parsed M args lines cin cfg hargs]
  have hiff : checkParameters cfg = none ↔ withinBounds cfg.iXSize cfg.iYSize cfg.iMines :=
    checkParameters_none_iff cfg
  have hvalid : withinBounds cfg.iXSize cfg.iYSize cfg.iMines →
      ∃ more, (mainFrom M cfg lines cin).calls =
        Call.construct :: Call.Init (CVector.mk cfg.iXSize cfg.iYSize) cfg.iMines :: more := by
    intro hb
    rw [mainFrom_valid M cfg lines cin (hiff.2 hb)]
    exact ⟨_, rfl⟩
  have hinvalid : ¬ withinBounds cfg.iXSize cfg.iYSize cfg.iMines →
      (mainFrom M cfg lines cin).exit = some 1 ∧ (mainFrom M cfg lines cin).Map = none ∧
        (mainFrom M cfg lines cin).calls = [] := by
    intro hb
    exact mainFrom_invalid M cfg lines cin (fun h => hb (hiff.1 h))
  refine ⟨⟨?_, ?_⟩, hvalid, ?_, hinvalid⟩
  · rintro ⟨size, mines, hmem⟩
    by_contra hb
    rw [(hinvalid hb).2.2] at hmem
    simp at hmem
  · intro hb
    obtain ⟨more, hmore⟩ := hvalid hb
    refine ⟨CVector.mk cfg.iXSize cfg.iYSize, cfg.iMines, ?_⟩
    rw [hmore]
    exact List.mem_cons_of_mem _ (List.mem_cons_self _ _)
  · intro size mines hmem
    exact mainFrom_initWith M cfg lines cin _ hmem

/-- Witness of C1: `termsweeper -x 4294967304`, which `atoi` stores as `iXSize = 8`, then the
commands `R` and `q`. -/
theorem C1_init_only_with_validated_parameters_witness :
    ((∃ size mines, Call.Init size mines ∈
        (main exampleMap [cstr "termsweeper", cstr "-x", cstr "4294967304"] [cstr "R", cstr "q"] []).calls) ↔
      withinBounds 8 8 10)
    ∧ (withinBounds 8 8 10 →
        ∃ more, (main exampleMap [cstr "termsweeper", cstr "-x", cstr "4294967304"]
            [cstr "R", cstr "q"] []).calls =
          Call.construct :: Call.Init (CVector.mk 8 8) 10 :: more)
    ∧ (∀ size mines, Call.Init size mines ∈
        (main exampleMap [cstr "termsweeper", cstr "-x", cstr "4294967304"] [cstr "R", cstr "q"] []).calls →
        size = CVector.mk 8 8 ∧ mines = 10)
    ∧ (¬ withinBounds 8 8 10 →
        (main exampleMap [cstr "termsweeper", cstr "-x", cstr "4294967304"] [cstr "R", cstr "q"] []).exit =
            some 1 ∧
          (main exampleMap [cstr "termsweeper", cstr "-x", cstr "4294967304"] [cstr "R", cstr "q"] []).Map =
            none ∧
          (main exampleMap [cstr "termsweeper", cstr "-x", cstr "4294967304"] [cstr "R", cstr "q"] []).calls =
            []) :=
  C1_init_only_with_validated_parameters exampleMap [cstr "termsweeper", cstr "-x", cstr "4294967304"]
    [cstr "R", cstr "q"] [] (Config.mk 8 8 10) (by decide)

/-- C9, as stated, fails: the argument list `termsweeper -h` contains no `-x`, `-y` or `-m`
option, yet `main` returns 1 without a single engine call (the `default:` branch of the
argument `switch`). -/
theorem C9_counterexample_unrecognised_option :
    (∀ a ∈ [cstr "termsweeper", cstr "-h"],
      ¬ (a.headD 0 = 45 ∧ (a.getD 1 0 = 120 ∨ a.getD 1 0 = 121 ∨ a.getD 1 0 = 109)))
    ∧ (main exampleMap [cstr "termsweeper", cstr "-h"] [] []).exit = some 1
    ∧ (main exampleMap [cstr "termsweeper", cstr "-h"] [] []).calls = [] := by
  decide

/-- C9, amended: when no argument starts with `-` (no `-x`, `-y`, `-m` and no unrecognised
option), the argument loop leaves the defaults 8, 8, 10, these pass the parameter checks,
`main` constructs the map and initialises it with width 8, height 8 and 10 mines, and does
not exit with code 1; and an `-x`, `-y` or `-m` that is the last argument (no value
follows) leaves all three values unchanged, here the defaults. -/
theorem C9_defaults_without_options {σ : Type} (M : CMap σ) (args : List CStr)
    (lines : List CStr) (cin : CStr) (hno : ∀ a ∈ args, a.headD 0 ≠ 45) :
    parseArgs args defaults = Parsed.ok (Config.mk 8 8 10)
    ∧ checkParameters (Config.mk 8 8 10) = none
    ∧ (∃ more, (main M args lines cin).calls =
        Call.construct :: Call.Init (CVector.mk 8 8) 10 :: more)
    ∧ (main M args lines cin).exit ≠ some 1
    ∧ (∀ (opt : CStr) (cfg : Config), opt.headD 0 = 45 →
        (opt.getD 1 0 = 120 ∨ opt.getD 1 0 = 121 ∨ opt.getD 1 0 = 109) →
        parseArgs [opt] cfg = Parsed.ok cfg)
    ∧ (∀ opt : CStr, opt.headD 0 = 45 →
        (opt.getD 1 0 = 120 ∨ opt.getD 1 0 = 121 ∨ opt.getD 1 0 = 109) →
        parseArgs (args ++ [opt]) defaults = Parsed.ok (Config.mk 8 8 10) ∧
        ∃ more, (main M (args ++ [opt]) lines cin).calls =
          Call.construct :: Call.Init (CVector.mk 8 8) 10 :: more) := by
  have hp : parseArgs args defaults = Parsed.ok defaults := parseArgs_no_dash args defaults hno
  have hc : checkParameters defaults = none := by decide
  have hstart : ∀ args2 : List CStr, parseArgs args2 defaults = Parsed.ok defaults →
      ∃ more, (main M args2 lines cin).calls =
        Call.construct :: Call.Init (CVector.mk 8 8) 10 :: more := by
    intro args2 h2
    rw [main_of_parsed M args2 lines cin defaults h2, mainFrom_valid M defaults lines cin hc]
    exact ⟨_, rfl⟩
  refine ⟨hp, hc, hstart args hp, ?_, ?_, ?_⟩
  · rw [main_of_parsed M args lines cin defaults hp, mainFrom_valid M defaults lines cin hc]
    rcases mainLoop_exit M defaults lines
      (M.printMap false (M.Init (CVector.mk defaults.iXSize defaults.iYSize) defaults.iMines
        M.construct)) cin with h | h <;> simp [h]
  · intro opt cfg h0 h1
    exact parseArgs_last_option opt cfg h0 h1
  · intro opt h0 h1
    have h2 : parseArgs (args ++ [opt]) defaults = Parsed.ok defaults := by
      rw [parseArgs_append_no_dash args [opt] defaults hno]
      exact parseArgs_last_option opt defaults h0 h1
    exact ⟨h2, hstart _ h2⟩

/-- Witness of C9 (amended): the bare command line `termsweeper`. -/
theorem C9_defaults_without_options_witness :
    parseArgs [cstr "termsweeper"] defaults = Parsed.ok (Config.mk 8 8 10)
    ∧ checkParameters (Config.mk 8 8 10) = none
    ∧ (∃ more, (main exampleMap [cstr "termsweeper"] [cstr "q"] []).calls =
        Call.construct :: Call.Init (CVector.mk 8 8) 10 :: more)
    ∧ (main exampleMap [cstr "termsweeper"] [cstr "q"] []).exit ≠ some 1
    ∧ (∀ (opt : CStr) (cfg : Config), opt.headD 0 = 45 →
        (opt.getD 1 0 = 120 ∨ opt.getD 1 0 = 121 ∨ opt.getD 1 0 = 109) →
        parseArgs [opt] cfg = Parsed.ok cfg)
    ∧ (∀ opt : CStr, opt.headD 0 = 45 →
        (opt.getD 1 0 = 120 ∨ opt.getD 1 0 = 121 ∨ opt.getD 1 0 = 109) →
        parseArgs ([cstr "termsweeper"] ++ [opt]) defaults = Parsed.ok (Config.mk 8 8 10) ∧
        ∃ more, (main exampleMap ([cstr "termsweeper"] ++ [opt]) [cstr "q"] []).calls =
          Call.construct :: Call.Init (CVector.mk 8 8) 10 :: more) :=
  C9_defaults_without_options exampleMap [cstr "termsweeper"] [cstr "q"] [] (by decide)

/-- C6: in every run of `main`, after a call in which `Try` or `TryAround` returned `false`
(loss) or `GameWon()` returned `true`, the mutating calls that follow (`Try`, `TryAround`,
`Flag`, `Mark`, `Quit`, `Init`) are either the single `Quit` at the end of the loop, or start
with `Quit` followed by `Init` with the original settings; so no `Try`, `TryAround`, `Flag`
or `Mark` reaches the finished field. -/
theorem C6_finished_field_only_reinitialised {σ : Type} (M : CMap σ) (args : List CStr)
    (lines : List CStr) (cin : CStr) (cfg : Config)
    (hargs : parseArgs args defaults = Parsed.ok cfg)
    (pre : List Call) (e : Call) (post : List Call)
    (hrun : (main M args lines cin).calls = pre ++ e :: post)
    (hend : (∃ pos, e = Call.Try pos (Res.ok false)) ∨
      (∃ pos, e = Call.TryAround pos (Res.ok false)) ∨ e = Call.GameWon true) :
    post.filter isMutating = [Call.Quit] ∨
      ∃ rest, post.filter isMutating =
        Call.Quit :: Call.Init (CVector.mk cfg.iXSize cfg.iYSize) cfg.iMines :: rest := by
  have hterm : isTerminal e = true := by
    rcases hend with ⟨pos, h⟩ | ⟨pos, h⟩ | h <;> subst h <;> rfl
  rw [main_of_parsed M args lines cin cfg hargs] at hrun
  exact respects_split cfg pre _ e post (mainFrom_respects M cfg lines cin) hrun hterm

/-- Witness of C6: the default field, the command `ta0` hits the mine of the example
engine and the answer `y` restarts the game. -/
theorem C6_finished_field_only_reinitialised_witness :
    [Call.printMap true, Call.Quit, Call.Init (CVector.mk 8 8) 10, Call.printMap false,
        Call.GameWon false, Call.printMessages].filter isMutating = [Call.Quit] ∨
      ∃ rest, [Call.printMap true, Call.Quit, Call.Init (CVector.mk 8 8) 10, Call.printMap false,
        Call.GameWon false, Call.printMessages].filter isMutating =
        Call.Quit :: Call.Init (CVector.mk 8 8) 10 :: rest :=
  C6_finished_field_only_reinitialised exampleMap [cstr "termsweeper"] [cstr "ta0"] (cstr "y")
    (Config.mk 8 8 10) (by decide)
    [Call.construct, Call.Init (CVector.mk 8 8) 10, Call.printMap false, Call.printMessages]
    (Call.Try (CVector.mk 0 0) (Res.ok false))
    [Call.printMap true, Call.Quit, Call.Init (CVector.mk 8 8) 10, Call.printMap false,
      Call.GameWon false, Call.printMessages]
    (by decide) (Or.inl ⟨CVector.mk 0 0, rfl⟩)

/-- C2, as stated, fails: on the validated default `8 x 8` field the line `TZ9` has the
coordinate `(25, 9)`, outside `[0,8) x [0,8)`, and the `switch` calls `Map.Try` with
exactly that position (the example engine is the one that objects). -/
theorem C2_counterexample_out_of_field_reaches_engine :
    checkParameters (Config.mk 8 8 10) = none
    ∧ fParsePosition (cstr "TZ9") = Res.ok (CVector.mk 25 9)
    ∧ ¬ ((25 : Int) < 8)
    ∧ (dispatch exampleMap (Config.mk 8 8 10) (cstr "TZ9")
        (ExampleField.mk (CVector.mk 8 8) []) []).calls =
      [Call.Try (CVector.mk 25 9) (Res.raise (Exn.runtime_error "Position out of range"))] := by
  decide

/-- C2, amended: `main` does not compare the coordinate with the field size.  For every
field size and every positional command line on which `fParsePosition` returns a position
(which has `0 ≤ x ≤ 25`, `0 ≤ y ≤ 9`), the first engine call of the `switch` is the
operation selected by the command character (`T`: `Try`, `X`: `TryAround`, `F`: `Flag`,
`?`: `Mark`) with exactly that position, inside the field or not. -/
theorem C2_parsed_position_reaches_engine {σ : Type} (M : CMap σ) (cfg : Config)
    (sCommand : CStr) (s : σ) (cin : CStr) (pos : CVector)
    (hpos : fParsePosition sCommand = Res.ok pos) :
    (0 ≤ pos.x ∧ pos.x ≤ 25 ∧ 0 ≤ pos.y ∧ pos.y ≤ 9)
    ∧ (sCommand.headD 0 = 84 ∨ sCommand.headD 0 = 116 →
        (dispatch M cfg sCommand s cin).calls.head? = some (Call.Try pos (M.Try pos s).1))
    ∧ (sCommand.headD 0 = 88 ∨ sCommand.headD 0 = 120 →
        (dispatch M cfg sCommand s cin).calls.head? =
          some (Call.TryAround pos (M.TryAround pos s).1))
    ∧ (sCommand.headD 0 = 70 ∨ sCommand.headD 0 = 102 →
        (dispatch M cfg sCommand s cin).calls.head? = some (Call.Flag pos (M.Flag pos s).1))
    ∧ (sCommand.headD 0 = 63 →
        (dispatch M cfg sCommand s cin).calls.head? = some (Call.Mark pos (M.Mark pos s).1)) := by
  have htry : ∀ (op : CVector → σ → Res Bool × σ) (ev : CVector → Res Bool → Call),
      (tryCase M cfg op ev sCommand s cin).calls.head? = some (ev pos (op pos s).1) := by
    intro op ev
    unfold tryCase
    simp only [hpos]
    rcases hop : op pos s with ⟨r, s1⟩
    rcases r with b | e
    · cases b
      · cases hq : (fContinueQuestion cin).1 <;> simp
      · simp
    · simp
  have hflag : ∀ (op : CVector → σ → Res Unit × σ) (ev : CVector → Res Unit → Call),
      (flagCase M op ev sCommand s cin).calls.head? = some (ev pos (op pos s).1) := by
    intro op ev
    unfold flagCase
    simp only [hpos]
    rcases hop : op pos s with ⟨r, s1⟩
    rcases r with u | e <;> simp
  refine ⟨fParsePosition_range sCommand pos hpos, ?_, ?_, ?_, ?_⟩
  · intro hc
    have hcmd : commandOf (sCommand.headD 0) = Command.T := commandOf_T _ hc
    unfold dispatch
    simp only [hcmd]
    exact htry M.Try Call.Try
  · intro hc
    have hcmd : commandOf (sCommand.headD 0) = Command.X := commandOf_X _ hc
    unfold dispatch
    simp only [hcmd]
    exact htry M.TryAround Call.TryAround
  · intro hc
    have hcmd : commandOf (sCommand.headD 0) = Command.F := commandOf_F _ hc
    unfold dispatch
    simp only [hcmd]
    exact hflag M.Flag Call.Flag
  · intro hc
    have hcmd : commandOf (sCommand.headD 0) = Command.mark := commandOf_mark _ hc
    unfold dispatch
    simp only [hcmd]
    exact hflag M.Mark Call.Mark

/-- Witness of C2 (amended): the line `XZ9` on the default field. -/
theorem C2_parsed_position_reaches_engine_witness :
    (0 ≤ (CVector.mk 25 9).x ∧ (CVector.mk 25 9).x ≤ 25 ∧
      0 ≤ (CVector.mk 25 9).y ∧ (CVector.mk 25 9).y ≤ 9)
    ∧ ((cstr "XZ9").headD 0 = 84 ∨ (cstr "XZ9").headD 0 = 116 →
        (dispatch exampleMap defaults (cstr "XZ9") (ExampleField.mk (CVector.mk 8 8) [])
            []).calls.head? =
          some (Call.Try (CVector.mk 25 9)
            (exampleMap.Try (CVector.mk 25 9) (ExampleField.mk (CVector.mk 8 8) [])).1))
    ∧ ((cstr "XZ9").headD 0 = 88 ∨ (cstr "XZ9").headD 0 = 120 →
        (dispatch exampleMap defaults (cstr "XZ9") (ExampleField.mk (CVector.mk 8 8) [])
            []).calls.head? =
          some (Call.TryAround (CVector.mk 25 9)
            (exampleMap.TryAround (CVector.mk 25 9) (ExampleField.mk (CVector.mk 8 8) [])).1))
    ∧ ((cstr "XZ9").headD 0 = 70 ∨ (cstr "XZ9").headD 0 = 102 →
        (dispatch exampleMap defaults (cstr "XZ9") (ExampleField.mk (CVector.mk 8 8) [])
            []).calls.head? =
          some (Call.Flag (CVector.mk 25 9)
            (exampleMap.Flag (CVector.mk 25 9) (ExampleField.mk (CVector.mk 8 8) [])).1))
    ∧ ((cstr "XZ9").headD 0 = 63 →
        (dispatch exampleMap defaults (cstr "XZ9") (ExampleField.mk (CVector.mk 8 8) [])
            []).calls.head? =
          some (Call.Mark (CVector.mk 25 9)
            (exampleMap.Mark (CVector.mk 25 9) (ExampleField.mk (CVector.mk 8 8) [])).1)) :=
  C2_parsed_position_reaches_engine exampleMap defaults (cstr "XZ9")
    (ExampleField.mk (CVector.mk 8 8) []) [] (CVector.mk 25 9) (by decide)

/-! ## Malformed commands and errors at the `switch` -/

theorem isPositional_cases (sCommand : CStr) (h : isPositional sCommand) :
    commandOf (sCommand.headD 0) = Command.T ∨ commandOf (sCommand.headD 0) = Command.X ∨
      commandOf (sCommand.headD 0) = Command.F ∨ commandOf (sCommand.headD 0) = Command.mark := by
  unfold isPositional at h
  rcases h with h | h | h | h | h | h | h
  · exact Or.inl (commandOf_T _ (Or.inl h))
  · exact Or.inl (commandOf_T _ (Or.inr h))
  · exact Or.inr (Or.inl (commandOf_X _ (Or.inl h)))
  · exact Or.inr (Or.inl (commandOf_X _ (Or.inr h)))
  · exact Or.inr (Or.inr (Or.inl (commandOf_F _ (Or.inl h))))
  · exact Or.inr (Or.inr (Or.inl (commandOf_F _ (Or.inr h))))
  · exact Or.inr (Or.inr (Or.inr (commandOf_mark _ h)))

/-- A positional command whose coordinate does not parse: the `switch` only prints. -/
theorem dispatch_parse_error {σ : Type} (M : CMap σ) (cfg : Config) (sCommand : CStr) (s : σ)
    (cin : CStr) (e : Exn) (hcmd : isPositional sCommand)
    (herr : fParsePosition sCommand = Res.raise e) :
    dispatch M cfg sCommand s cin = Step.mk s cin [] [catchMessage e] true := by
  unfold dispatch
  rcases isPositional_cases sCommand hcmd with h | h | h | h <;>
    simp only [h, tryCase, flagCase, herr]

theorem tryCase_op_error {σ : Type} (M : CMap σ) (cfg : Config)
    (op : CVector → σ → Res Bool × σ) (ev : CVector → Res Bool → Call)
    (sCommand : CStr) (s : σ) (cin : CStr) (pos : CVector) (e : Exn) (s1 : σ)
    (hpos : fParsePosition sCommand = Res.ok pos) (hop : op pos s = (Res.raise e, s1)) :
    tryCase M cfg op ev sCommand s cin =
      Step.mk s1 cin [ev pos (Res.raise e)] [catchMessage e] true := by
  unfold tryCase
  simp only [hpos, hop]

theorem flagCase_op_error {σ : Type} (M : CMap σ)
    (op : CVector → σ → Res Unit × σ) (ev : CVector → Res Unit → Call)
    (sCommand : CStr) (s : σ) (cin : CStr) (pos : CVector) (e : Exn) (s1 : σ)
    (hpos : fParsePosition sCommand = Res.ok pos) (hop : op pos s = (Res.raise e, s1)) :
    flagCase M op ev sCommand s cin =
      Step.mk s1 cin [ev pos (Res.raise e)] [catchMessage e] true := by
  unfold flagCase
  simp only [hpos, hop]

/-- C4: a malformed command leaves the field unchanged and the loop running.  On the empty
line the loop body takes the `continue`: no engine call, nothing printed, `bContinueLoop`
still true.  On a positional command (`T`, `X`, `F`, `?`) whose coordinate makes
`fParsePosition` throw `e`, the `switch` makes no engine call at all (so none of `Try`,
`TryAround`, `Flag`, `Mark`, `Quit`, `Init`), leaves the engine state and `cin` as they
were, prints the message of `e` and keeps `bContinueLoop` true; and when the field is not
reported won, the rest of the pass only queries `GameWon()` and does not `break`. -/
theorem C4_malformed_command_leaves_field {σ : Type} (M : CMap σ) (cfg : Config)
    (sCommand : CStr) (s : σ) (cin : CStr) (e : Exn) (hcmd : isPositional sCommand)
    (herr : fParsePosition sCommand = Res.raise e) :
    commandStep M cfg [] s cin = Iter.mk (Step.mk s cin [] [] true) false
    ∧ dispatch M cfg sCommand s cin = Step.mk s cin [] [catchMessage e] true
    ∧ ((M.GameWon s).1 = false →
        commandStep M cfg sCommand s cin =
          Iter.mk (Step.mk (M.GameWon s).2 cin [Call.GameWon false] [catchMessage e] true)
            false) := by
  have hd := dispatch_parse_error M cfg sCommand s cin e hcmd herr
  refine ⟨rfl, hd, ?_⟩
  intro hg
  have hne : ¬ (sCommand.length < 1) := by
    cases sCommand with
    | nil =>
      unfold isPositional at hcmd
      simp at hcmd
    | cons c rest => simp
  unfold commandStep wonCheck
  simp only [hne, if_false, hd, hg, Bool.false_eq_true, List.nil_append]

/-- Witness of C4: the line `T5` (no letter after the command character). -/
theorem C4_malformed_command_leaves_field_witness :
    commandStep exampleMap defaults [] (ExampleField.mk (CVector.mk 8 8) []) [] =
      Iter.mk (Step.mk (ExampleField.mk (CVector.mk 8 8) []) [] [] [] true) false
    ∧ dispatch exampleMap defaults (cstr "T5") (ExampleField.mk (CVector.mk 8 8) []) [] =
      Step.mk (ExampleField.mk (CVector.mk 8 8) []) [] []
        [catchMessage (Exn.runtime_error "Missing or incomplete Position")] true
    ∧ ((exampleMap.GameWon (ExampleField.mk (CVector.mk 8 8) [])).1 = false →
        commandStep exampleMap defaults (cstr "T5") (ExampleField.mk (CVector.mk 8 8) []) [] =
          Iter.mk (Step.mk (exampleMap.GameWon (ExampleField.mk (CVector.mk 8 8) [])).2 []
            [Call.GameWon false]
            [catchMessage (Exn.runtime_error "Missing or incomplete Position")] true) false) :=
  C4_malformed_command_leaves_field exampleMap defaults (cstr "T5")
    (ExampleField.mk (CVector.mk 8 8) []) [] (Exn.runtime_error "Missing or incomplete Position")
    (Or.inl (by decide)) (by decide)

/-- C5: on a positional command (`T`, `X`, `F`, `?`), whatever the engine does, an error
thrown by `fParsePosition` or by the engine operation called (`Try`, `TryAround`, `Flag`,
`Mark`) is caught inside the `switch`: the step ends normally, prints the message of the
error (`what()` for a `runtime_error`, `Unknown Exception: what()` otherwise), keeps
`bContinueLoop` true, and makes no other engine call (in particular no `Quit` or `Init`);
the engine state is the one the failed call left. -/
theorem C5_errors_caught_at_dispatch {σ : Type} (M : CMap σ) (cfg : Config)
    (sCommand : CStr) (s : σ) (cin : CStr) (hcmd : isPositional sCommand) :
    (∀ e, fParsePosition sCommand = Res.raise e →
      dispatch M cfg sCommand s cin = Step.mk s cin [] [catchMessage e] true)
    ∧ (∀ pos e s1, fParsePosition sCommand = Res.ok pos →
        (sCommand.headD 0 = 84 ∨ sCommand.headD 0 = 116 → M.Try pos s = (Res.raise e, s1) →
          dispatch M cfg sCommand s cin =
            Step.mk s1 cin [Call.Try pos (Res.raise e)] [catchMessage e] true)
        ∧ (sCommand.headD 0 = 88 ∨ sCommand.headD 0 = 120 →
          M.TryAround pos s = (Res.raise e, s1) →
          dispatch M cfg sCommand s cin =
            Step.mk s1 cin [Call.TryAround pos (Res.raise e)] [catchMessage e] true)
        ∧ (sCommand.headD 0 = 70 ∨ sCommand.headD 0 = 102 → M.Flag pos s = (Res.raise e, s1) →
          dispatch M cfg sCommand s cin =
            Step.mk s1 cin [Call.Flag pos (Res.raise e)] [catchMessage e] true)
        ∧ (sCommand.headD 0 = 63 → M.Mark pos s = (Res.raise e, s1) →
          dispatch M cfg sCommand s cin =
            Step.mk s1 cin [Call.Mark pos (Res.raise e)] [catchMessage e] true))
    ∧ (∀ what, catchMessage (Exn.runtime_error what) = what ++ "\n")
    ∧ (∀ what, catchMessage (Exn.invalid_argument what) = "Unknown Exception: " ++ what ++ "\n")
    ∧ (∀ what, catchMessage (Exn.exception what) = "Unknown Exception: " ++ what ++ "\n") := by
  refine ⟨fun e herr => dispatch_parse_error M cfg sCommand s cin e hcmd herr, ?_,
    fun _ => rfl, fun _ => rfl, fun _ => rfl⟩
  intro pos e s1 hpos
  refine ⟨?_, ?_, ?_, ?_⟩
  · intro hc hop
    unfold dispatch
    simp only [commandOf_T _ hc]
    exact tryCase_op_error M cfg M.Try Call.Try sCommand s cin pos e s1 hpos hop
  · intro hc hop
    unfold dispatch
    simp only [commandOf_X _ hc]
    exact tryCase_op_error M cfg M.TryAround Call.TryAround sCommand s cin pos e s1 hpos hop
  · intro hc hop
    unfold dispatch
    simp only [commandOf_F _ hc]
    exact flagCase_op_error M M.Flag Call.Flag sCommand s cin pos e s1 hpos hop
  · intro hc hop
    unfold dispatch
    simp only [commandOf_mark _ hc]
    exact flagCase_op_error M M.Mark Call.Mark sCommand s cin pos e s1 hpos hop

/-- Witness of C5: the line `FZ9` on the default field of the example engine, whose `Flag`
throws for a position outside the field. -/
theorem C5_errors_caught_at_dispatch_witness :
    dispatch exampleMap defaults (cstr "FZ9") (ExampleField.mk (CVector.mk 8 8) []) [] =
      Step.mk (ExampleField.mk (CVector.mk 8 8) []) []
        [Call.Flag (CVector.mk 25 9) (Res.raise (Exn.runtime_error "Position out of range"))]
        [catchMessage (Exn.runtime_error "Position out of range")] true :=
  ((C5_errors_caught_at_dispatch exampleMap defaults (cstr "FZ9")
      (ExampleField.mk (CVector.mk 8 8) []) []
      (Or.inr (Or.inr (Or.inr (Or.inr (Or.inl (by decide))))))).2.1
    (CVector.mk 25 9) (Exn.runtime_error "Position out of range")
    (ExampleField.mk (CVector.mk 8 8) []) (by decide)).2.2.1 (Or.inl (by decide)) (by decide)

/-! ## Case insensitivity -/

theorem isalpha_toupper (c : Int) : isalpha (toupper c) = isalpha c := by
  unfold isalpha toupper
  split <;> (apply decide_eq_decide.mpr; omega)

theorem isdigit_toupper (c : Int) : isdigit (toupper c) = isdigit c := by
  unfold isdigit toupper
  split <;> (apply decide_eq_decide.mpr; omega)

theorem toupper_toupper (c : Int) : toupper (toupper c) = toupper c := by
  unfold toupper
  split_ifs <;> omega

theorem isalpha_tolower (c : Int) : isalpha (tolower c) = isalpha c := by
  unfold isalpha tolower
  split <;> (apply decide_eq_decide.mpr; omega)

theorem isdigit_tolower (c : Int) : isdigit (tolower c) = isdigit c := by
  unfold isdigit tolower
  split <;> (apply decide_eq_decide.mpr; omega)

theorem toupper_tolower (c : Int) : toupper (tolower c) = toupper c := by
  unfold toupper tolower
  split_ifs <;> omega

theorem toupper_of_isdigit (c : Int) (h : isdigit c = true) : toupper c = c := by
  rw [isdigit_range] at h
  unfold toupper
  split <;> omega

theorem tolower_of_isdigit (c : Int) (h : isdigit c = true) : tolower c = c := by
  rw [isdigit_range] at h
  unfold tolower
  split <;> omega

/-- The loop of `fParsePosition` does not see a change of letter case. -/
theorem loop_map (f : Int → Int) (hα : ∀ c, isalpha (f c) = isalpha c)
    (hδ : ∀ c, isdigit (f c) = isdigit c) (hup : ∀ c, toupper (f c) = toupper c)
    (hdig : ∀ c, isdigit c = true → f c = c) (s : CStr) :
    ∀ x y : Int, fParsePositionLoop (s.map f) x y = fParsePositionLoop s x y := by
  induction s with
  | nil => intro x y; rfl
  | cons c rest ih =>
    intro x y
    simp only [List.map_cons, fParsePositionLoop, hα, hδ, hup, ih]
    cases hd : isdigit c
    · simp
    · rw [hdig c hd]

theorem fParsePosition_map (f : Int → Int) (hα : ∀ c, isalpha (f c) = isalpha c)
    (hδ : ∀ c, isdigit (f c) = isdigit c) (hup : ∀ c, toupper (f c) = toupper c)
    (hdig : ∀ c, isdigit c = true → f c = c) (s : CStr) :
    fParsePosition (s.map f) = fParsePosition s := by
  cases s with
  | nil => rfl
  | cons c rest =>
    unfold fParsePosition
    simp only [List.map_cons, List.length_cons, List.length_map, List.tail_cons,
      loop_map f hα hδ hup hdig rest]

theorem commandOf_toupper (c : Int) : commandOf (toupper c) = commandOf c := by
  unfold toupper
  by_cases h : 97 ≤ c ∧ c ≤ 122
  · rw [if_pos h]
    obtain ⟨h1, h2⟩ := h
    interval_cases c <;> decide
  · rw [if_neg h]

theorem commandOf_tolower (c : Int) : commandOf (tolower c) = commandOf c := by
  unfold tolower
  by_cases h : 65 ≤ c ∧ c ≤ 90
  · rw [if_pos h]
    obtain ⟨h1, h2⟩ := h
    interval_cases c <;> decide
  · rw [if_neg h]

theorem headD_map (f : Int → Int) (h0 : f 0 = 0) (s : CStr) :
    (s.map f).headD 0 = f (s.headD 0) := by
  cases s with
  | nil => simp [h0]
  | cons c rest => simp

theorem dispatch_map {σ : Type} (M : CMap σ) (cfg : Config) (f : Int → Int)
    (hcmd : ∀ t : CStr, commandOf ((t.map f).headD 0) = commandOf (t.headD 0))
    (hparse : ∀ t : CStr, fParsePosition (t.map f) = fParsePosition t)
    (sCommand : CStr) (s : σ) (cin : CStr) :
    dispatch M cfg (sCommand.map f) s cin = dispatch M cfg sCommand s cin := by
  unfold dispatch tryCase flagCase
  rw [hcmd sCommand, hparse sCommand]

/-- C8: commands and coordinates are case insensitive.  For every command line, replacing
every ASCII letter by its upper-case form, or every one by its lower-case form, changes
neither the command the `switch` selects, nor what `fParsePosition` yields (the same
position or the same error), nor anything the `switch` or the rest of the loop body does. -/
theorem C8_case_insensitive {σ : Type} (M : CMap σ) (cfg : Config) (sCommand : CStr) (s : σ)
    (cin : CStr) :
    commandOf ((sCommand.map toupper).headD 0) = commandOf (sCommand.headD 0)
    ∧ commandOf ((sCommand.map tolower).headD 0) = commandOf (sCommand.headD 0)
    ∧ fParsePosition (sCommand.map toupper) = fParsePosition sCommand
    ∧ fParsePosition (sCommand.map tolower) = fParsePosition sCommand
    ∧ dispatch M cfg (sCommand.map toupper) s cin = dispatch M cfg sCommand s cin
    ∧ dispatch M cfg (sCommand.map tolower) s cin = dispatch M cfg sCommand s cin
    ∧ commandStep M cfg (sCommand.map toupper) s cin = commandStep M cfg sCommand s cin
    ∧ commandStep M cfg (sCommand.map tolower) s cin = commandStep M cfg sCommand s cin := by
  have hcu : ∀ t : CStr, commandOf ((t.map toupper).headD 0) = commandOf (t.headD 0) := by
    intro t
    rw [headD_map toupper (by decide) t, commandOf_toupper]
  have hcl : ∀ t : CStr, commandOf ((t.map tolower).headD 0) = commandOf (t.headD 0) := by
    intro t
    rw [headD_map tolower (by decide) t, commandOf_tolower]
  have hpu : ∀ t : CStr, fParsePosition (t.map toupper) = fParsePosition t :=
    fParsePosition_map toupper isalpha_toupper isdigit_toupper toupper_toupper
      toupper_of_isdigit
  have hpl : ∀ t : CStr, fParsePosition (t.map tolower) = fParsePosition t :=
    fParsePosition_map tolower isalpha_tolower isdigit_tolower toupper_tolower
      tolower_of_isdigit
  have hdu := dispatch_map M cfg toupper hcu hpu sCommand s cin
  have hdl := dispatch_map M cfg tolower hcl hpl sCommand s cin
  refine ⟨hcu sCommand, hcl sCommand, hpu sCommand, hpl sCommand, hdu, hdl, ?_, ?_⟩
  · unfold commandStep
    rw [List.length_map, hdu]
  · unfold commandStep
    rw [List.length_map, hdl]

end Termsweeper
